import Mathlib

/-!
# Verification model of the Youtube-Clip-Genie extraction pipeline

This file gives a shallow embedding of the resilient JSON-extraction,
normalization, transcript-alignment and retry pipeline of the repository
(`src/services/geminiService.ts`, the bulletproof variant appended to
`src/services/transcriptService.ts`, the quote-protecting variant in
`src/unnamed/part_006`, and `secondsToTime` from `src/lambda/index.mjs`),
together with proofs about the claims of the specification.

Conventions of the embedding:
* JavaScript strings are Lean `String`/`List Char` (Unicode scalar values;
  lone UTF-16 surrogates are not modeled).
* JavaScript numbers are modeled by `JsNum`, an exact (unnormalized) fraction
  of an integer numerator over a positive natural denominator.  IEEE-754
  rounding, `Infinity` and non-finite arithmetic are not modeled; `NaN` is
  modeled by `Option.none` at exactly the points where the code produces or
  tests it.
* Each `String.prototype.replace` call with a global regex is modeled by a
  dedicated left-to-right scanner that mirrors the exact (backtracking)
  behaviour of that regex on the ASCII inputs in scope; the regex is quoted
  in the doc comment of the scanner.
* Fuel parameters make the recursions structural; fuel is always instantiated
  large enough that it is never exhausted.
-/

set_option maxRecDepth 16384

namespace ClipGenie

/-- A JavaScript (finite) number: the exact rational `n / d`.  The fraction is
not kept in lowest terms, so that every operation is a plain integer
computation.  All constructors in this file produce `0 < d`. -/
structure JsNum where
  n : Int
  d : Nat
deriving DecidableEq, Inhabited

namespace JsNum

/-- Embed a natural number. -/
def ofNat (m : Nat) : JsNum := ⟨m, 1⟩

/-- Embed an integer. -/
def ofInt (m : Int) : JsNum := ⟨m, 1⟩

instance : OfNat JsNum m := ⟨ofNat m⟩

def neg (a : JsNum) : JsNum := ⟨-a.n, a.d⟩

def add (a b : JsNum) : JsNum := ⟨a.n * b.d + b.n * a.d, a.d * b.d⟩

def sub (a b : JsNum) : JsNum := add a (neg b)

def mul (a b : JsNum) : JsNum := ⟨a.n * b.n, a.d * b.d⟩

/-- Division; only ever used with a positive divisor in this file. -/
def div (a b : JsNum) : JsNum := ⟨a.n * b.d * b.n.sign, a.d * b.n.natAbs⟩

/-- `a < b` as rationals (cross multiplication; denominators positive). -/
def blt (a b : JsNum) : Bool := decide (a.n * b.d < b.n * a.d)

/-- `a ≤ b` as rationals. -/
def ble (a b : JsNum) : Bool := decide (a.n * b.d ≤ b.n * a.d)

/-- Numeric equality of values. -/
def beq (a b : JsNum) : Bool := decide (a.n * b.d = b.n * a.d)

/-- `Math.floor`, for a positive denominator (`Int.fdiv` is floor division). -/
def floor (a : JsNum) : Int := a.n.fdiv a.d

/-- The value as a mathematical rational (used in statements only). -/
def toRat (a : JsNum) : ℚ := (a.n : ℚ) / (a.d : ℚ)

/-- The JavaScript `%` operator for the non-negative operands used by
`secondsToTime` (where truncated and floored remainder agree). -/
def modNat (a : JsNum) (m : Nat) : JsNum :=
  sub a (mul (ofInt ((div a (ofNat m)).floor)) (ofNat m))

end JsNum

/-- JSON values as produced by `JSON.parse`.  Object fields are kept in
insertion order; on duplicate keys JavaScript keeps the last occurrence,
which `Json.getField` reproduces. -/
inductive Json where
  | null
  | bool (b : Bool)
  | num (q : JsNum)
  | str (s : String)
  | arr (elems : List Json)
  | obj (fields : List (String × Json))
deriving Inhabited

/-- JSON source whitespace (`ws` in ECMA-404): space, tab, newline, return. -/
def jsonWs (c : Char) : Bool := c = ' ' || c = '\t' || c = '\n' || c = '\r'

/-- JavaScript `\s` (ASCII part): space, tab, newline, return, vertical tab,
form feed.  Unicode spaces are not modeled. -/
def jsWs (c : Char) : Bool :=
  c = ' ' || c = '\t' || c = '\n' || c = '\r' || c = '\x0b' || c = '\x0c'

/-- `String.prototype.trim` (ASCII whitespace; Unicode spaces not modeled). -/
def trimJs (cs : List Char) : List Char :=
  ((cs.dropWhile (jsWs ·)).reverse.dropWhile (jsWs ·)).reverse

/-- Drop leading JSON whitespace. -/
def skipWs : List Char → List Char
  | c :: cs => if jsonWs c then skipWs cs else c :: cs
  | [] => []

/-- Value of a hexadecimal digit. -/
def hexVal (c : Char) : Option Nat :=
  if '0' ≤ c ∧ c ≤ '9' then some (c.toNat - '0'.toNat)
  else if 'a' ≤ c ∧ c ≤ 'f' then some (c.toNat - 'a'.toNat + 10)
  else if 'A' ≤ c ∧ c ≤ 'F' then some (c.toNat - 'A'.toNat + 10)
  else none

/-- Decimal value of a digit character. -/
def digitVal (c : Char) : Nat := c.toNat - '0'.toNat

/-- Horner evaluation of a list of decimal digit characters. -/
def digitsToNat (acc : Nat) : List Char → Nat
  | [] => acc
  | c :: cs => digitsToNat (acc * 10 + digitVal c) cs

/-- Body of a JSON string literal after the opening quote: returns the decoded
content and the remaining input after the closing quote.  Escapes `\" \\ \/
\b \f \n \r \t \uXXXX` are decoded; unescaped control characters are a parse
error, as in `JSON.parse`.  `\u` escapes denoting UTF-16 surrogates are not
modeled (they fail here). -/
def parseStrBody : Nat → List Char → Option (List Char × List Char)
  | 0, _ => none
  | _ + 1, [] => none
  | fuel + 1, c :: cs =>
    if c = '"' then some ([], cs)
    else if c = '\\' then
      match cs with
      | [] => none
      | e :: cs' =>
        let cont (d : Char) (rest : List Char) : Option (List Char × List Char) :=
          (parseStrBody fuel rest).map fun p => (d :: p.1, p.2)
        if e = '"' then cont '"' cs'
        else if e = '\\' then cont '\\' cs'
        else if e = '/' then cont '/' cs'
        else if e = 'b' then cont '\x08' cs'
        else if e = 'f' then cont '\x0c' cs'
        else if e = 'n' then cont '\n' cs'
        else if e = 'r' then cont '\r' cs'
        else if e = 't' then cont '\t' cs'
        else if e = 'u' then
          match cs' with
          | h1 :: h2 :: h3 :: h4 :: cs'' =>
            match hexVal h1, hexVal h2, hexVal h3, hexVal h4 with
            | some a, some b, some c', some d =>
              let m := ((a * 16 + b) * 16 + c') * 16 + d
              if h : Nat.isValidChar m then cont (Char.ofNatAux m h) cs''
              else none
            | _, _, _, _ => none
          | _ => none
        else none
    else if c.toNat < 0x20 then none
    else (parseStrBody fuel cs).map fun p => (c :: p.1, p.2)

/-- A JSON number literal (`-?(0|[1-9][0-9]*)(\.[0-9]+)?([eE][+-]?[0-9]+)?`),
evaluated exactly.  Returns the value and the remaining input. -/
def parseJsonNumber (cs : List Char) : Option (JsNum × List Char) :=
  let (neg, cs₁) := match cs with
    | '-' :: r => (true, r)
    | _ => (false, cs)
  let intPart : Option (Nat × List Char) := match cs₁ with
    | '0' :: r => some (0, r)
    | c :: _ =>
      if c.isDigit ∧ c ≠ '0' then
        some (digitsToNat 0 (cs₁.takeWhile Char.isDigit), cs₁.dropWhile Char.isDigit)
      else none
    | [] => none
  match intPart with
  | none => none
  | some (i, cs₂) =>
    let fracPart : Option (Nat × Nat × List Char) := match cs₂ with
      | '.' :: r =>
        let ds := r.takeWhile Char.isDigit
        if ds.isEmpty then none
        else some (digitsToNat 0 ds, ds.length, r.dropWhile Char.isDigit)
      | _ => some (0, 0, cs₂)
    match fracPart with
    | none => none
    | some (f, k, cs₃) =>
      let expPart : Option (Bool × Nat × List Char) := match cs₃ with
        | 'e' :: r | 'E' :: r =>
          let (eneg, r₁) := match r with
            | '+' :: r' => (false, r')
            | '-' :: r' => (true, r')
            | _ => (false, r)
          let ds := r₁.takeWhile Char.isDigit
          if ds.isEmpty then none
          else some (eneg, digitsToNat 0 ds, r₁.dropWhile Char.isDigit)
        | _ => some (false, 0, cs₃)
      match expPart with
      | none => none
      | some (eneg, e, cs₄) =>
        let mag : JsNum := (JsNum.ofNat i).add ⟨(f : Int), 10 ^ k⟩
        let mag : JsNum :=
          if eneg then ⟨mag.n, mag.d * 10 ^ e⟩ else ⟨mag.n * 10 ^ e, mag.d⟩
        some (if neg then mag.neg else mag, cs₄)

mutual

/-- Recursive-descent parser for a JSON value, mirroring `JSON.parse`. -/
def parseJsonValue : Nat → List Char → Option (Json × List Char)
  | 0, _ => none
  | fuel + 1, cs =>
    match skipWs cs with
    | 'n' :: 'u' :: 'l' :: 'l' :: r => some (.null, r)
    | 't' :: 'r' :: 'u' :: 'e' :: r => some (.bool true, r)
    | 'f' :: 'a' :: 'l' :: 's' :: 'e' :: r => some (.bool false, r)
    | '"' :: r => (parseStrBody (r.length + 1) r).map fun p => (.str ⟨p.1⟩, p.2)
    | '[' :: r =>
      (match skipWs r with
       | ']' :: r' => some (.arr [], r')
       | _ => parseJsonElems fuel r [])
    | '{' :: r =>
      (match skipWs r with
       | '}' :: r' => some (.obj [], r')
       | _ => parseJsonFields fuel r [])
    | c :: r =>
      if c = '-' ∨ c.isDigit then
        (parseJsonNumber (c :: r)).map fun p => (.num p.1, p.2)
      else none
    | [] => none

/-- Elements of a JSON array after `[` (at least one element). -/
def parseJsonElems : Nat → List Char → List Json → Option (Json × List Char)
  | 0, _, _ => none
  | fuel + 1, cs, acc =>
    match parseJsonValue fuel cs with
    | none => none
    | some (v, rest) =>
      match skipWs rest with
      | ',' :: r => parseJsonElems fuel r (acc ++ [v])
      | ']' :: r => some (.arr (acc ++ [v]), r)
      | _ => none

/-- Members of a JSON object after `{` (at least one member). -/
def parseJsonFields : Nat → List Char → List (String × Json) →
    Option (Json × List Char)
  | 0, _, _ => none
  | fuel + 1, cs, acc =>
    match skipWs cs with
    | '"' :: r =>
      match parseStrBody (r.length + 1) r with
      | none => none
      | some (key, rest) =>
        match skipWs rest with
        | ':' :: r' =>
          match parseJsonValue fuel r' with
          | none => none
          | some (v, rest') =>
            match skipWs rest' with
            | ',' :: r'' => parseJsonFields fuel r'' (acc ++ [(⟨key⟩, v)])
            | '}' :: r'' => some (.obj (acc ++ [(⟨key⟩, v)]), r'')
            | _ => none
        | _ => none
    | _ => none

end

/-- `JSON.parse`: parse a complete JSON text (surrounding whitespace allowed,
nothing may follow the value). -/
def Json.parse (s : String) : Option Json :=
  let cs := s.toList
  match parseJsonValue (2 * cs.length + 2) cs with
  | some (v, rest) => if (skipWs rest).isEmpty then some v else none
  | none => none

/-- JavaScript property access `j.k` on a parsed value: `none` plays the role
of `undefined`.  On duplicate keys the last occurrence wins, as in
`JSON.parse`. -/
def Json.getField (j : Json) (k : String) : Option Json :=
  match j with
  | .obj fs => ((fs.reverse).find? fun p => p.1 = k).map (·.2)
  | _ => none

/-- JavaScript truthiness of a parsed JSON value.  (JSON numbers are never
`NaN`, so a number is falsy exactly when it is zero.) -/
def Json.truthy : Json → Bool
  | .null => false
  | .bool b => b
  | .num q => decide (q.n ≠ 0)
  | .str s => decide (s ≠ "")
  | .arr _ => true
  | .obj _ => true

/-- Truthiness of `j.k` (an absent field is `undefined`, hence falsy). -/
def truthyField (j : Json) (k : String) : Bool :=
  match j.getField k with
  | some v => v.truthy
  | none => false

/-- The JavaScript chain `j.k₁ || j.k₂ || … || dflt`: the first truthy field
value, else the default. -/
def firstTruthyField (j : Json) : List String → Json → Json
  | [], dflt => dflt
  | k :: ks, dflt =>
    match j.getField k with
    | some v => if v.truthy then v else firstTruthyField j ks dflt
    | none => firstTruthyField j ks dflt

/-! ## The cleaning chain of `extractValidClipsArrayFromGemini`
(`src/services/geminiService.ts`, lines 87–116).  Each global-regex
`replace` is modeled by a left-to-right scanner. -/

/-- `replace(/LIT/g, REP)` for a literal pattern `pat` (non-overlapping,
left to right). -/
def replaceAllSub (pat rep : List Char) : Nat → List Char → List Char
  | 0, cs => cs
  | _, [] => []
  | fuel + 1, c :: cs =>
    if pat ≠ [] ∧ pat.isPrefixOf (c :: cs) then
      rep ++ replaceAllSub pat rep fuel ((c :: cs).drop pat.length)
    else
      c :: replaceAllSub pat rep fuel cs

/-- `replace(/,(\s*[\]}])/g, '$1')`: drop a comma standing before (possibly
whitespace and) a closing bracket or brace. -/
def fixTrailingCommas : Nat → List Char → List Char
  | 0, cs => cs
  | _, [] => []
  | fuel + 1, c :: cs =>
    if c = ',' then
      let ws := cs.takeWhile (jsWs ·)
      match cs.dropWhile (jsWs ·) with
      | b :: rest => if b = ']' ∨ b = '}' then ws ++ b :: fixTrailingCommas fuel rest
                     else c :: fixTrailingCommas fuel cs
      | [] => c :: fixTrailingCommas fuel cs
    else c :: fixTrailingCommas fuel cs

/-- First character of a JavaScript identifier (`[a-zA-Z_]`). -/
def identStart (c : Char) : Bool := c.isAlpha || c = '_'

/-- Subsequent character of a JavaScript identifier (`[a-zA-Z0-9_]`). -/
def identChar (c : Char) : Bool := c.isAlphanum || c = '_'

/-- `replace(/([{,]\s*)([a-zA-Z_][a-zA-Z0-9_]*)\s*:/g, '$1"$2":')`: quote an
unquoted property name. -/
def quoteKeys : Nat → List Char → List Char
  | 0, cs => cs
  | _, [] => []
  | fuel + 1, c :: cs =>
    if c = '{' ∨ c = ',' then
      let ws := cs.takeWhile (jsWs ·)
      let r1 := cs.dropWhile (jsWs ·)
      match r1 with
      | i :: _ =>
        if identStart i then
          let ident := r1.takeWhile (identChar ·)
          let r2 := r1.dropWhile (identChar ·)
          match r2.dropWhile (jsWs ·) with
          | ':' :: r4 => c :: (ws ++ '"' :: (ident ++ '"' :: ':' :: quoteKeys fuel r4))
          | _ => c :: quoteKeys fuel cs
        else c :: quoteKeys fuel cs
      | [] => c :: quoteKeys fuel cs
    else c :: quoteKeys fuel cs

/-- The control characters removed by
`replace(/[\x00-\x08\x0B-\x0C\x0E-\x1F\x7F]/g, '')`. -/
def isCtlGemini (c : Char) : Bool :=
  c.toNat ≤ 0x08 || c.toNat = 0x0b || c.toNat = 0x0c ||
  (0x0e ≤ c.toNat && c.toNat ≤ 0x1f) || c.toNat = 0x7f

/-- `replace(/"\s*\n\s*"/g, '",\n"')`: two quotes separated by whitespace
containing a newline get a comma inserted. -/
def fixNlBetweenQuotes : Nat → List Char → List Char
  | 0, cs => cs
  | _, [] => []
  | fuel + 1, c :: cs =>
    if c = '"' then
      let ws := cs.takeWhile (jsWs ·)
      match cs.dropWhile (jsWs ·) with
      | '"' :: rest =>
        if ws.contains '\n' then
          '"' :: ',' :: '\n' :: '"' :: fixNlBetweenQuotes fuel rest
        else c :: fixNlBetweenQuotes fuel cs
      | _ => c :: fixNlBetweenQuotes fuel cs
    else c :: fixNlBetweenQuotes fuel cs

/-- `replace(/}[\s\n]*{/g, '},{')`. -/
def fixBraceGap : Nat → List Char → List Char
  | 0, cs => cs
  | _, [] => []
  | fuel + 1, c :: cs =>
    if c = '}' then
      match cs.dropWhile (jsWs ·) with
      | '{' :: rest => '}' :: ',' :: '{' :: fixBraceGap fuel rest
      | _ => c :: fixBraceGap fuel cs
    else c :: fixBraceGap fuel cs

/-- The negated character class `[^"{\[\d\-truefalsenull]` opening group 1 of
the unquoted-string-value fixer. -/
def uvExcluded (c : Char) : Bool :=
  c = '"' || c = '{' || c = '[' || c.isDigit || c = '-' ||
  c = 't' || c = 'r' || c = 'u' || c = 'e' || c = 'f' ||
  c = 'a' || c = 'l' || c = 's' || c = 'n'

/-- Group 2 of the unquoted-string-value fixer, `(\s*[,}\]])`, matched at the
head of the input: returns (whitespace, closing char, rest). -/
def uvGroup2 (cs : List Char) : Option (List Char × Char × List Char) :=
  let ws := cs.takeWhile (jsWs ·)
  match cs.dropWhile (jsWs ·) with
  | b :: rest => if b = ',' ∨ b = '}' ∨ b = ']' then some (ws, b, rest) else none
  | [] => none

/-- Lazy expansion of `[^,\]}]*?` followed by group 2: the shortest prefix
(containing no `,`, `]`, `}`) whose suffix matches `\s*[,}\]]`. -/
def uvLazy : Nat → List Char → Option (List Char × List Char × Char × List Char)
  | 0, _ => none
  | fuel + 1, cs =>
    match uvGroup2 cs with
    | some (ws, b, rest) => some ([], ws, b, rest)
    | none =>
      match cs with
      | [] => none
      | c :: cs' =>
        if c = ',' ∨ c = ']' ∨ c = '}' then none
        else (uvLazy fuel cs').map fun p => (c :: p.1, p.2)

/-- One backtracking attempt of the unquoted-string-value regex with the
greedy `\s*` after the colon consuming exactly `k` of the whitespace run `w`:
group 1 must open with a character outside `uvExcluded`. -/
def uvTry (w rest₀ : List Char) (k : Nat) :
    Option (List Char × List Char × Char × List Char) :=
  match w.drop k ++ rest₀ with
  | c₀ :: sfx =>
    if uvExcluded c₀ then none
    else (uvLazy (sfx.length + 1) sfx).map fun p => (c₀ :: p.1, p.2)
  | [] => none

/-- Backtracking search: the greedy `\s*` tries the longest prefix first and
gives characters back one at a time.  Returns the consumed-whitespace count
and the groups of the first successful attempt. -/
def uvSearch (w rest₀ : List Char) :
    Nat → Option (Nat × List Char × List Char × Char × List Char)
  | 0 => (uvTry w rest₀ 0).map fun r => (0, r)
  | k + 1 =>
    match uvTry w rest₀ (k + 1) with
    | some r => some (k + 1, r)
    | none => uvSearch w rest₀ k

/-- `replace(/:\s*([^"{\[\d\-truefalsenull][^,\]}]*?)(\s*[,}\]])/g, callback)`
where the callback wraps the trimmed group-1 value in double quotes unless it
is empty, `true`, `false` or `null` (in which case the match is kept
verbatim).  The scan resumes after the end of the match in either case. -/
def fixUnquotedValues : Nat → List Char → List Char
  | 0, cs => cs
  | _, [] => []
  | fuel + 1, c :: cs =>
    if c = ':' then
      let w := cs.takeWhile (jsWs ·)
      let rest₀ := cs.dropWhile (jsWs ·)
      match uvSearch w rest₀ w.length with
      | some (k, g1, ws2, b, rest) =>
        let trimmed := trimJs g1
        if trimmed ≠ [] ∧ trimmed ≠ "true".toList ∧ trimmed ≠ "false".toList ∧
            trimmed ≠ "null".toList then
          ':' :: ' ' :: '"' :: (trimmed ++ '"' :: (ws2 ++ b :: fixUnquotedValues fuel rest))
        else
          ':' :: (w.take k ++ (g1 ++ (ws2 ++ b :: fixUnquotedValues fuel rest)))
      | none => c :: fixUnquotedValues fuel cs
    else c :: fixUnquotedValues fuel cs

/-- `replace(/\s+/g, ' ')`. -/
def collapseWs : Nat → List Char → List Char
  | 0, cs => cs
  | _, [] => []
  | fuel + 1, c :: cs =>
    if jsWs c then ' ' :: collapseWs fuel (cs.dropWhile (jsWs ·))
    else c :: collapseWs fuel cs

/-- The "ULTRA-AGGRESSIVE CLEANING SEQUENCE" applied to one candidate span,
in source order (`geminiService.ts`, lines 87–116). -/
def cleanGeminiJson (cs : List Char) : List Char :=
  let s1 := replaceAllSub ['\\', 'n'] [' '] cs.length cs
  let s2 := replaceAllSub ['\\', 'r'] [' '] s1.length s1
  let s3 := replaceAllSub ['\\', 't'] [' '] s2.length s2
  let s4 := replaceAllSub ['\\', 'b'] [] s3.length s3
  let s5 := replaceAllSub ['\\', 'f'] [] s4.length s4
  let s6 := fixTrailingCommas s5.length s5
  let s7 := s6.map fun c => if c = '\'' then '"' else c
  let s8 := quoteKeys s7.length s7
  let s9 := s8.filter fun c => !(isCtlGemini c)
  let s10 := fixNlBetweenQuotes s9.length s9
  let s11 := fixBraceGap s10.length s10
  let s12 := fixUnquotedValues s11.length s11
  let s13 := replaceAllSub ['`', '`', '`'] [] s12.length s12
  collapseWs s13.length s13

/-- `replace(/^PAT\s*/, '')` for a literal head pattern (markdown fence). -/
def stripFenceHead (tag cs : List Char) : List Char :=
  if tag.isPrefixOf cs then (cs.drop tag.length).dropWhile (jsWs ·) else cs

/-- `replace(/\s*` ++ "```" ++ `$/g, '')`: a trailing fence together with the
whitespace before it. -/
def stripFenceTail (cs : List Char) : List Char :=
  let r := cs.reverse
  if ['`', '`', '`'].isPrefixOf r then ((r.drop 3).dropWhile (jsWs ·)).reverse
  else cs

/-- STEP 1 of the extractor: aggressive markdown-wrapper removal
(`geminiService.ts`, lines 57–62), applied to the trimmed response text. -/
def stripMarkdownGemini (cs : List Char) : List Char :=
  let t1 := stripFenceHead "```json".toList cs
  let t2 := stripFenceHead ['`', '`', '`'] t1
  let t3 := stripFenceTail t2
  let t4 := replaceAllSub "```json".toList [] t3.length t3
  replaceAllSub ['`', '`', '`'] [] t4.length t4

/-- STEP 2: `text.match(/\[[\s\S]*?\]/g)` — the non-overlapping lazy matches:
each candidate runs from a `[` to the first `]` after it, and the scan
resumes after that `]`. -/
def findArrayCandidates : Nat → List Char → List (List Char)
  | 0, _ => []
  | _, [] => []
  | fuel + 1, c :: cs =>
    if c = '[' then
      match cs.dropWhile (· ≠ ']') with
      | ']' :: rest =>
        ('[' :: (cs.takeWhile (· ≠ ']') ++ [']'])) :: findArrayCandidates fuel rest
      | _ => []
    else findArrayCandidates fuel cs

/-- Stable insertion of a span into a length-descending list: the new span
goes after all spans of greater-or-equal length. -/
def insertLenDesc (x : List Char) : List (List Char) → List (List Char)
  | [] => [x]
  | y :: ys => if y.length < x.length then x :: y :: ys else y :: insertLenDesc x ys

/-- STEP 3: `allMatches.sort((a, b) => b.length - a.length)` — the stable
(ES2019) sort by descending length, realized as a stable insertion sort
(stability and the comparator determine the result uniquely). -/
def sortLenDesc : List (List Char) → List (List Char)
  | [] => []
  | x :: xs => insertLenDesc x (sortLenDesc xs)

/-- The canonical clip record produced by the extractor's normalization map
(`geminiService.ts`, lines 133–139).  Field values are the parsed JSON
values (the code does not constrain their types). -/
structure NormClip where
  title : Json
  description : Json
  tags : Json
  startTime : Json
  endTime : Json
deriving Inhabited

/-- `parsed.map(clip => ({title: clip.title || clip.Title || '', …}))`. -/
def normalizeClip (clip : Json) : NormClip where
  title := firstTruthyField clip ["title", "Title"] (.str "")
  description := firstTruthyField clip ["description", "Description"] (.str "")
  tags := firstTruthyField clip ["tags", "Tags"] (.arr [])
  startTime := firstTruthyField clip ["startTime", "start", "StartTime"] (.str "")
  endTime := firstTruthyField clip ["endTime", "end", "EndTime"] (.str "")

/-- The required-property check performed on `parsed[0]` only
(`geminiService.ts`, lines 127–130). -/
def headValid (first : Json) : Bool :=
  first.truthy &&
  (truthyField first "title" || truthyField first "Title") &&
  (truthyField first "startTime" || truthyField first "start" ||
    truthyField first "StartTime") &&
  (truthyField first "endTime" || truthyField first "end" ||
    truthyField first "EndTime")

/-- STEP 4 body for one candidate: clean, `JSON.parse`, require a non-empty
array whose first element passes `headValid`, and normalize every element.
`none` covers both a parse failure (caught) and a failed validation. -/
def tryCandidate (span : List Char) : Option (List NormClip) :=
  match Json.parse ⟨cleanGeminiJson span⟩ with
  | some (.arr (v :: vs)) =>
    if headValid v then some ((v :: vs).map normalizeClip) else none
  | _ => none

/-- Error raised when `match` finds no array at all. -/
def noArrayMsg : String := "No JSON array found in Gemini response - please try again"

/-- Error raised when every candidate fails. -/
def unrecoverableMsg : String :=
  "UNRECOVERABLE_JSON_FALLBACK_TRIGGERED: Could not extract valid clips from any array in the response. Please try again."

/-- The candidate spans located in a raw response after trimming and
markdown removal (`allMatches` in the source). -/
def geminiCandidates (rawResponse : String) : List (List Char) :=
  findArrayCandidates (stripMarkdownGemini (trimJs rawResponse.toList)).length
    (stripMarkdownGemini (trimJs rawResponse.toList))

/-- The "ULTIMATE UNBREAKABLE JSON EXTRACTOR"
(`extractValidClipsArrayFromGemini`, `geminiService.ts` lines 49–158):
trim, strip markdown, locate candidates, sort by descending length, try each
in order, return the first success. -/
def extractValidClipsArrayFromGemini (rawResponse : String) :
    Except String (List NormClip) :=
  match geminiCandidates rawResponse with
  | [] => .error noArrayMsg
  | c :: cs =>
    match (sortLenDesc (c :: cs)).findSome? tryCandidate with
    | some recs => .ok recs
    | none => .error unrecoverableMsg

/-! ## Time conversion (`timeToSeconds`, `geminiService.ts` lines 27–39;
`secondsToTime`, `src/lambda/index.mjs` lines 188–203). -/

/-- Horner evaluation of a list of hex digit characters (assumed valid). -/
def hexToNat (acc : Nat) : List Char → Nat
  | [] => acc
  | c :: cs => hexToNat (acc * 16 + (hexVal c).getD 0) cs

/-- The `StrDecimalLiteral` part of JavaScript `Number(string)`:
`[+-]? digits? (. digits?)? ([eE][+-]?digits)?` with at least one digit
before or after the dot, consuming the whole input.  `none` is `NaN`. -/
def jsDecimal (cs : List Char) : Option JsNum :=
  let (neg, cs₁) := match cs with
    | '-' :: r => (true, r)
    | '+' :: r => (false, r)
    | _ => (false, cs)
  let ip := cs₁.takeWhile Char.isDigit
  let r₁ := cs₁.dropWhile Char.isDigit
  let (fp, r₂) := match r₁ with
    | '.' :: r => (r.takeWhile Char.isDigit, r.dropWhile Char.isDigit)
    | _ => ([], r₁)
  if ip.isEmpty ∧ fp.isEmpty then none
  else
    let (eneg, ev, r₃) := match r₂ with
      | e :: r =>
        if e = 'e' ∨ e = 'E' then
          let (en, r') := match r with
            | '+' :: t => (false, t)
            | '-' :: t => (true, t)
            | _ => (false, r)
          let ed := r'.takeWhile Char.isDigit
          if ed.isEmpty then (false, 0, r₂)
          else (en, digitsToNat 0 ed, r'.dropWhile Char.isDigit)
        else (false, 0, r₂)
      | [] => (false, 0, ([] : List Char))
    if r₃.isEmpty then
      let mag : JsNum := ⟨(digitsToNat 0 ip : Int) * 10 ^ fp.length + (digitsToNat 0 fp : Int),
                          10 ^ fp.length⟩
      let mag : JsNum := if eneg then ⟨mag.n, mag.d * 10 ^ ev⟩ else ⟨mag.n * 10 ^ ev, mag.d⟩
      some (if neg then mag.neg else mag)
    else none

/-- JavaScript `Number(string)` (as used by `time.split(':').map(Number)`):
trims, maps the empty string to `0`, accepts unsigned hex `0x…` and signed
decimal literals.  `Infinity` literals and Unicode whitespace are not
modeled (they yield `none`). -/
def jsNumber (s : String) : Option JsNum :=
  let cs := trimJs s.toList
  if cs.isEmpty then some 0
  else
    match cs with
    | '0' :: x :: r =>
      if x = 'x' ∨ x = 'X' then
        if r ≠ [] ∧ r.all (fun c => (hexVal c).isSome) then some ⟨(hexToNat 0 r : Nat), 1⟩
        else none
      else jsDecimal cs
    | _ => jsDecimal cs

/-- `String.prototype.split` with a single-character separator (keeps empty
pieces, as in JavaScript). -/
def splitChar (sep : Char) : List Char → List (List Char)
  | [] => [[]]
  | c :: cs =>
    if c = sep then [] :: splitChar sep cs
    else
      match splitChar sep cs with
      | h :: t => (c :: h) :: t
      | [] => [[c]]

/-- `timeToSeconds` (`geminiService.ts` lines 27–39): `none` models `NaN`.
A missing colon, a `NaN` component, or a component count other than 2 or 3
all return `NaN`; otherwise `MM:SS ↦ M*60+S` and `HH:MM:SS ↦
H*3600+M*60+S`. -/
def timeToSeconds (time : String) : Option JsNum :=
  if time = "" ∨ ¬ (time.toList.contains ':') then none
  else
    match (splitChar ':' time.toList).map (fun p => jsNumber ⟨p⟩) with
    | [some m, some s] => some ((m.mul (JsNum.ofNat 60)).add s)
    | [some h, some m, some s] =>
      some (((h.mul (JsNum.ofNat 3600)).add (m.mul (JsNum.ofNat 60))).add s)
    | _ => none

/-- `String(n).padStart(2, '0')` for a natural number. -/
def pad2 (n : Nat) : String := if n < 10 then "0" ++ Nat.repr n else Nat.repr n

/-- `secondsToTime` (`src/lambda/index.mjs` lines 188–203) on a non-`NaN`
number: negative input gives `"00:00"`; otherwise `HH:MM:SS` when the hour
part is positive, else `MM:SS`, all components zero-padded to two digits. -/
def secondsToTime (q : JsNum) : String :=
  if q.blt 0 then "00:00"
  else
    let hours := ((q.div (JsNum.ofNat 3600)).floor).toNat
    let minutes := (((q.modNat 3600).div (JsNum.ofNat 60)).floor).toNat
    let secs := ((q.modNat 60).floor).toNat
    if hours > 0 then pad2 hours ++ ":" ++ pad2 minutes ++ ":" ++ pad2 secs
    else pad2 minutes ++ ":" ++ pad2 secs

/-- `secondsToTime` including its `isNaN` guard (`none` is `NaN`). -/
def secondsToTimeOpt : Option JsNum → String
  | none => "00:00"
  | some q => secondsToTime q

/-! ## Transcript alignment and the retry orchestrator
(`generateClipsFromTranscript`, `geminiService.ts` lines 315–396). -/

/-- One entry of the externally supplied transcript
(`TranscriptSegment` in `src/services/transcriptService.ts`). -/
structure TranscriptSegment where
  text : String
  start : JsNum
  duration : JsNum
deriving Inhabited

/-- A normalized clip together with the aligned transcript
(`{ ...clip, transcript }`). -/
structure ClipWithTranscript extends NormClip where
  transcript : String
deriving Inhabited

/-- Sentinel transcript for a record whose times do not parse. -/
def invalidTsMsg : String := "Could not extract transcript due to invalid timestamps."

/-- Sentinel transcript when the joined segment text is empty. -/
def noTranscriptMsg : String := "Transcript for this segment could not be found."

/-- Runtime behaviour of `timeToSeconds` on an arbitrary normalized field
value: a string is converted; falsy values (`null`, `false`, `0`) take the
`!time` early-`NaN` path; an array without a `":"` element fails its
`includes(':')` test (`NaN`); remaining non-strings throw a `TypeError`
(`.includes`/`.split` is not a function), modeled as `Except.error`. -/
def timeToSecondsJ : Json → Except String (Option JsNum)
  | .str s => .ok (timeToSeconds s)
  | .null => .ok none
  | .bool false => .ok none
  | .bool true => .error "TypeError: time.includes is not a function"
  | .num q =>
    if q.n = 0 then .ok none else .error "TypeError: time.includes is not a function"
  | .arr l =>
    if l.any (fun j => match j with | .str s => s = ":" | _ => false) then
      .error "TypeError: time.split is not a function"
    else .ok none
  | .obj _ => .error "TypeError: time.includes is not a function"

/-- The transcript-alignment body mapped over the extracted clips
(`geminiService.ts` lines 346–363): on unparseable times the record is kept
with `invalidTsMsg`; otherwise the overlapping segments
(`segment.start < endSeconds && segment.start + segment.duration >
startSeconds`) are joined by single spaces, trimmed, and an empty result is
replaced by `noTranscriptMsg`. -/
def attachTranscript (segments : List TranscriptSegment) (clip : NormClip) :
    Except String ClipWithTranscript :=
  match timeToSecondsJ clip.startTime, timeToSecondsJ clip.endTime with
  | .error e, _ => .error e
  | .ok _, .error e => .error e
  | .ok (some s), .ok (some e) =>
    .ok ⟨clip,
      (fun t => if t = "" then noTranscriptMsg else t)
        (⟨trimJs (String.intercalate " "
          ((segments.filter fun seg =>
              seg.start.blt e && s.blt (seg.start.add seg.duration)).map (·.text))).toList⟩ :
          String)⟩
  | .ok _, .ok _ => .ok ⟨clip, invalidTsMsg⟩

/-- `clipsFromAi.map(...)` with a thrown `TypeError` aborting the whole
attempt, as in JavaScript. -/
def mapTranscripts (clips : List NormClip) (segments : List TranscriptSegment) :
    Except String (List ClipWithTranscript) :=
  match clips with
  | [] => .ok []
  | c :: cs =>
    match attachTranscript segments c with
    | .error e => .error e
    | .ok r =>
      match mapTranscripts cs segments with
      | .error e => .error e
      | .ok rs => .ok (r :: rs)

/-- One full attempt: extraction followed by transcript alignment. -/
def generateAttempt (raw : String) (segments : List TranscriptSegment) :
    Except String (List ClipWithTranscript) :=
  (extractValidClipsArrayFromGemini raw).bind fun clips => mapTranscripts clips segments

/-- `const MAX_ATTEMPTS = 3`. -/
def MAX_ATTEMPTS : Nat := 3

/-- Observable outcome of the retry loop: the final result, the number of
backend attempts made, and the backoff delays (in ms) awaited between
attempts. -/
structure RunResult (α : Type) where
  result : Except String α
  attempts : Nat
  delays : List Nat
deriving Inhabited

/-- The terminal error of the orchestrator (`geminiService.ts` lines
393–395). -/
def exhaustedMsg (lastErr : Option String) : String :=
  "Failed to generate clips from Gemini API after " ++ Nat.repr MAX_ATTEMPTS ++
  " attempts. Last error: " ++ lastErr.getD "Unknown error" ++
  ". Please try again or contact support if the issue persists."

/-- The retry `while` loop: `fuel` is the number of remaining allowed
attempts (`MAX_ATTEMPTS - attempts`), `f n` is the outcome of attempt `n`.
After a failed non-final attempt the delay `2000 * 2 ^ (attempts - 1)` ms is
recorded; reaching the bound produces the terminal error. -/
def retryGo (f : Nat → Except String α) :
    Nat → Nat → Option String → List Nat → RunResult α
  | 0, attempts, lastErr, delays => ⟨.error (exhaustedMsg lastErr), attempts, delays⟩
  | fuel + 1, attempts, _lastErr, delays =>
    let att := attempts + 1
    match f att with
    | .ok v => ⟨.ok v, att, delays⟩
    | .error e =>
      if att ≥ MAX_ATTEMPTS then ⟨.error (exhaustedMsg (some e)), att, delays⟩
      else retryGo f fuel att (some e) (delays ++ [2000 * 2 ^ (att - 1)])

/-- The retry loop entered with zero attempts made. -/
def retryWithBackoff (f : Nat → Except String α) : RunResult α :=
  retryGo f MAX_ATTEMPTS 0 none []

/-- The outcome of the `n`-th attempt of the orchestrator: the backend call
(`backend n` is the raw text of the `n`-th Gemini call, or a backend error)
followed by extraction and alignment; any failure is caught by the retry
loop. -/
def attemptOutcome (backend : Nat → Except String String)
    (segments : List TranscriptSegment) (n : Nat) :
    Except String (List ClipWithTranscript) :=
  (backend n).bind fun raw => generateAttempt raw segments

/-- `generateClipsFromTranscript` (`geminiService.ts` lines 315–396): the
retry loop over the attempt outcomes, with exponential backoff. -/
def generateClipsFromTranscript (backend : Nat → Except String String)
    (segments : List TranscriptSegment) : RunResult (List ClipWithTranscript) :=
  retryWithBackoff (attemptOutcome backend segments)

/-- The subscription plans (`UserPlan` in `src/types`). -/
inductive UserPlan where
  | free
  | casual
  | mastermind
deriving DecidableEq, Inhabited

/-- The per-plan clip ceiling stated by `getSystemInstruction`
(`geminiService.ts` lines 161–176): 5 / 20 / 50.  It appears only inside
the prompt text sent to the model. -/
def planClipLimit : UserPlan → Nat
  | .free => 5
  | .casual => 20
  | .mastermind => 50

/-! ## The "BULLETPROOF JSON PARSER" variant (`extractJsonArray` appended to
`src/services/transcriptService.ts`, LAYERs 1–6). -/

/-- LAYER 1: conditional fence stripping (`raw.startsWith('```json')` /
`raw.startsWith('```')`, each stripping head fence plus trailing
`\s*` ++ fence). -/
def stripFences_bp (cs : List Char) : List Char :=
  let cs₁ :=
    if "```json".toList.isPrefixOf cs then
      stripFenceTail (stripFenceHead "```json".toList cs)
    else cs
  if ['`', '`', '`'].isPrefixOf cs₁ then
    stripFenceTail (stripFenceHead ['`', '`', '`'] cs₁)
  else cs₁

/-- The required-field check of the bulletproof variant:
`clips[0].title && clips[0].startTime && clips[0].endTime` (exact keys, no
aliases). -/
def headValid_bp (first : Json) : Bool :=
  truthyField first "title" && truthyField first "startTime" &&
  truthyField first "endTime"

/-- LAYER 3: `raw.match(/\[[\s\S]*\]/)` — the greedy match from the first
`[` to the last `]` after it. -/
def greedyArrayMatch (cs : List Char) : Option (List Char) :=
  match cs.dropWhile (· ≠ '[') with
  | c :: rest =>
    let t := rest.reverse.dropWhile (· ≠ ']')
    if t.isEmpty then none else some (c :: t.reverse)
  | [] => none

/-- The control characters removed by the nuclear fallback
(`[\x00-\x09\x0B-\x1F\x7F]`, keeping `\n`). -/
def isCtl_bp (c : Char) : Bool :=
  c.toNat ≤ 0x09 || (0x0b ≤ c.toNat && c.toNat ≤ 0x1f) || c.toNat = 0x7f

/-- `replace(/:\s*([a-zA-Z][a-zA-Z0-9\s]*[a-zA-Z0-9])\s*([,}\]])/g, ': "$1"$2')`:
the simple unquoted-value fixer of the nuclear fallback.  Group 1 must start
with a letter, end with an alphanumeric, and have length at least two. -/
def fixUnquotedValues_bp : Nat → List Char → List Char
  | 0, cs => cs
  | _, [] => []
  | fuel + 1, c :: cs =>
    if c = ':' then
      match cs.dropWhile (jsWs ·) with
      | l :: r₁ =>
        if l.isAlpha then
          let run := r₁.takeWhile fun d => d.isAlphanum || jsWs d
          let after := r₁.dropWhile fun d => d.isAlphanum || jsWs d
          let g1tail := (run.reverse.dropWhile (jsWs ·)).reverse
          if g1tail.isEmpty then c :: fixUnquotedValues_bp fuel cs
          else
            match after with
            | b :: rest =>
              if b = ',' ∨ b = '}' ∨ b = ']' then
                ':' :: ' ' :: '"' :: (l :: (g1tail ++ '"' :: b :: fixUnquotedValues_bp fuel rest))
              else c :: fixUnquotedValues_bp fuel cs
            | [] => c :: fixUnquotedValues_bp fuel cs
        else c :: fixUnquotedValues_bp fuel cs
      | [] => c :: fixUnquotedValues_bp fuel cs
    else c :: fixUnquotedValues_bp fuel cs

/-- LAYER 5: the nuclear manual repair chain, in source order. -/
def bpNuclearFix (cs : List Char) : List Char :=
  let s1 := fixTrailingCommas cs.length cs
  let s2 := s1.map fun c => if c = '\'' then '"' else c
  let s3 := quoteKeys s2.length s2
  let s4 := replaceAllSub "```json".toList [] s3.length s3
  let s5 := replaceAllSub ['`', '`', '`'] [] s4.length s4
  let s6 := s5.filter fun c => !(isCtl_bp c)
  let s7 := fixNlBetweenQuotes s6.length s6
  fixUnquotedValues_bp s7.length s7

/-- LAYER 6 (reached when the nuclear parse succeeded but its inline check
failed): final validation of the last parsed value. -/
def bpLayer6 (clips : Json) : Except String (List Json) :=
  match clips with
  | .arr (v :: vs) =>
    if headValid_bp v then .ok (v :: vs)
    else .error "Parsed clips are missing required fields (title, startTime, endTime)"
  | _ => .error "Gemini returned empty or invalid clips array"

/-- LAYER 5 driver: repair, parse (a failure here is the terminal "could not
be repaired" error), inline check, then LAYER 6. -/
def bpLayer5 (jsonString : List Char) : Except String (List Json) :=
  match Json.parse ⟨bpNuclearFix jsonString⟩ with
  | none => .error "The AI returned malformed JSON that could not be repaired. Please try again."
  | some j =>
    match j with
    | .arr (v :: vs) => if headValid_bp v then .ok (v :: vs) else bpLayer6 j
    | _ => bpLayer6 j

/-- LAYERs 3–4: regex extraction of the first greedy `[...]` block and a
plain parse of it, falling through to the nuclear fallback. -/
def bpLayer3 (raw : List Char) : Except String (List Json) :=
  match greedyArrayMatch raw with
  | none => .error "The AI returned a response that did not contain a valid JSON array."
  | some jsonString =>
    match Json.parse ⟨jsonString⟩ with
    | some (.arr (v :: vs)) =>
      if headValid_bp v then .ok (v :: vs) else bpLayer5 jsonString
    | _ => bpLayer5 jsonString

/-- The bulletproof `extractJsonArray` (LAYER 2 is the direct parse of the
fence-stripped text; on success with a valid head the parsed records are
returned unchanged). -/
def extractJsonArray_bp (text : String) : Except String (List Json) :=
  match Json.parse ⟨stripFences_bp (trimJs text.toList)⟩ with
  | some (.arr (v :: vs)) =>
    if headValid_bp v then .ok (v :: vs)
    else bpLayer3 (stripFences_bp (trimJs text.toList))
  | _ => bpLayer3 (stripFences_bp (trimJs text.toList))

/-! ## The quote-protecting aggressive cleanup of `src/unnamed/part_006`
(lines 332–357). -/

/-- `replace(/'/g, '"')` on one character. -/
def apos2dq (c : Char) : Char := if c = '\'' then '"' else c

/-- `m.replace(/'/g, '\u0001')` on one character (the protection map). -/
def protectChar (c : Char) : Char := if c = '\'' then '\x01' else c

/-- `replace(/\u0001/g, "'")` on one character (the restoration map). -/
def restoreChar (c : Char) : Char := if c = '\x01' then '\'' else c

/-- `replace(/"([^"]*)"/g, m => m.replace(/'/g, '\u0001'))`: inside each
pair of double quotes, apostrophes are replaced by the placeholder
`\u0001`. -/
def protectQuoted : Nat → List Char → List Char
  | 0, cs => cs
  | _, [] => []
  | fuel + 1, c :: cs =>
    if c = '"' then
      match cs.dropWhile (· ≠ '"') with
      | '"' :: rest =>
        '"' :: ((cs.takeWhile (· ≠ '"')).map protectChar) ++ '"' :: protectQuoted fuel rest
      | _ => c :: protectQuoted fuel cs
    else c :: protectQuoted fuel cs

/-- The quote-normalization step of the part_006 aggressive cleanup: protect
apostrophes inside double-quoted strings, convert the remaining single
quotes to double quotes, restore the protected apostrophes. -/
def quoteNormalizeP6 (cs : List Char) : List Char :=
  ((protectQuoted cs.length cs).map apos2dq).map restoreChar

/-- The part_006 aggressive cleanup: quote normalization followed by quoting
of unquoted property names. -/
def fixQuotesP6 (cs : List Char) : List Char :=
  quoteKeys (quoteNormalizeP6 cs).length (quoteNormalizeP6 cs)

/-- A text decomposed into double-quoted regions: for each pair the first
component is outside all double quotes and the second is one quote-delimited
string body, followed by a trailing outside part. -/
def renderQuoted : List (List Char × List Char) → List Char → List Char
  | [], tail => tail
  | (o, i) :: rest, tail => o ++ '"' :: (i ++ '"' :: renderQuoted rest tail)

/-! ## Theorems about the claims -/

/-- **C1** (counterexample).  A raw response holding a short decoy array
`[1,2]` followed by a longer, complete, valid clip array (with a `tags`
array, as the prompt demands) defeats extraction entirely: the lazy
candidate regex truncates the clip array at the `]` that closes `tags`, the
truncated span cannot be repaired, the decoy fails validation, and the
extractor throws — it does not parse the longer array and return its
records. -/
theorem C1_counterexample :
    Json.parse
        "[\x7b\"title\":\"T\",\"startTime\":\"01:00\",\"endTime\":\"02:00\",\"tags\":[\"a\",\"b\"]\x7d]"
      = some (.arr [.obj [("title", .str "T"), ("startTime", .str "01:00"),
          ("endTime", .str "02:00"), ("tags", .arr [.str "a", .str "b"])]])
    ∧ extractValidClipsArrayFromGemini
        "[1,2] [\x7b\"title\":\"T\",\"startTime\":\"01:00\",\"endTime\":\"02:00\",\"tags\":[\"a\",\"b\"]\x7d]"
      = .error unrecoverableMsg := by
  exact ⟨rfl, rfl⟩

/-- **C2** (counterexample).  A segment that *does* overlap the clip but
carries empty text makes the joined transcript empty, and the code then
substitutes the "not found" sentinel — the transcript does not equal the
space-joined trimmed text of the selected segments (which would be `""`). -/
theorem C2_counterexample :
    (JsNum.blt ⟨0, 1⟩ ⟨10, 1⟩ = true ∧ JsNum.blt ⟨0, 1⟩ (JsNum.add ⟨0, 1⟩ ⟨5, 1⟩) = true)
    ∧ attachTranscript [⟨"", ⟨0, 1⟩, ⟨5, 1⟩⟩]
        ⟨.str "t", .str "", .arr [], .str "00:00", .str "00:10"⟩
      = .ok ⟨⟨.str "t", .str "", .arr [], .str "00:00", .str "00:10"⟩, noTranscriptMsg⟩
    ∧ noTranscriptMsg ≠ "" := by
  exact ⟨⟨rfl, rfl⟩, rfl, by decide⟩

/-- **C4** (counterexample).  The pipeline performs no duration or ordering
validation: a record whose end (60 s) lies *before* its start (120 s) — so
`end > start` fails and the duration −60 s is outside any `[min, max]`
bound — survives to the success outcome of the orchestrator unchanged. -/
theorem C4_counterexample :
    generateClipsFromTranscript
        (fun _ => .ok "[\x7b\"title\":\"T\",\"startTime\":\"02:00\",\"endTime\":\"01:00\"\x7d]") []
      = ⟨.ok [⟨⟨.str "T", .str "", .arr [], .str "02:00", .str "01:00"⟩, noTranscriptMsg⟩],
         1, []⟩
    ∧ timeToSeconds "02:00" = some ⟨120, 1⟩
    ∧ timeToSeconds "01:00" = some ⟨60, 1⟩
    ∧ ¬ (60 : Int) > 120 := by
  exact ⟨rfl, rfl, rfl, by decide⟩

/-- **C5** (counterexample).  Six valid records on the free plan (whose
stated ceiling is 5) are all returned: no truncation to `maxClipCount`
happens anywhere in the code. -/
theorem C5_counterexample :
    ((generateClipsFromTranscript (fun _ => .ok
        "[\x7b\"title\":\"T1\",\"startTime\":\"01:00\",\"endTime\":\"02:00\"\x7d,\x7b\"title\":\"T2\",\"startTime\":\"01:00\",\"endTime\":\"02:00\"\x7d,\x7b\"title\":\"T3\",\"startTime\":\"01:00\",\"endTime\":\"02:00\"\x7d,\x7b\"title\":\"T4\",\"startTime\":\"01:00\",\"endTime\":\"02:00\"\x7d,\x7b\"title\":\"T5\",\"startTime\":\"01:00\",\"endTime\":\"02:00\"\x7d,\x7b\"title\":\"T6\",\"startTime\":\"01:00\",\"endTime\":\"02:00\"\x7d]")
        []).result.map List.length) = .ok 6
    ∧ planClipLimit .free = 5
    ∧ ¬ (6 ≤ planClipLimit .free) := by
  exact ⟨rfl, rfl, by decide⟩

/-- **C6** (counterexample).  A span that already parses cleanly as a valid
clip array (title `"a  b"`, with two spaces) is *not* returned as by a
direct parse: the unconditional cleaning collapses the whitespace inside
the string value, so the ladder yields a different record. -/
theorem C6_counterexample :
    Json.parse "[\x7b\"title\":\"a  b\",\"startTime\":\"01:00\",\"endTime\":\"02:00\"\x7d]"
      = some (.arr [.obj [("title", .str "a  b"), ("startTime", .str "01:00"),
          ("endTime", .str "02:00")]])
    ∧ extractValidClipsArrayFromGemini
        "[\x7b\"title\":\"a  b\",\"startTime\":\"01:00\",\"endTime\":\"02:00\"\x7d]"
      = .ok [⟨.str "a b", .str "", .arr [], .str "01:00", .str "02:00"⟩]
    ∧ ("a b" : String) ≠ "a  b" := by
  exact ⟨rfl, rfl, by decide⟩

/-- **C7** (counterexample).  In `extractValidClipsArrayFromGemini` the
quote-normalization step `replace(/'/g, '"')` converts *every* single quote:
a span that parses cleanly with title `"can't"` has its apostrophe turned
into a double quote by the cleaning (no apostrophe survives at all), the
cleaned text no longer parses, and extraction fails. -/
theorem C7_counterexample :
    Json.parse "[\x7b\"title\":\"can't\",\"startTime\":\"01:00\",\"endTime\":\"02:00\"\x7d]"
      = some (.arr [.obj [("title", .str "can't"), ("startTime", .str "01:00"),
          ("endTime", .str "02:00")]])
    ∧ (cleanGeminiJson
        "[\x7b\"title\":\"can't\",\"startTime\":\"01:00\",\"endTime\":\"02:00\"\x7d]".toList).contains '\''
      = false
    ∧ extractValidClipsArrayFromGemini
        "[\x7b\"title\":\"can't\",\"startTime\":\"01:00\",\"endTime\":\"02:00\"\x7d]"
      = .error unrecoverableMsg := by
  exact ⟨rfl, rfl, rfl⟩

/-- **C8** (counterexample).  The round-trip law fails on well-formed inputs:
`"00:10:00"` (canonically padded `HH:MM:SS`) comes back as the two-component
`"10:00"`, and `"90:30"` (`MM:SS` with MM ≥ 60) comes back as
`"01:30:30"` — in both cases no zero-padding canonicalization can equate the
two strings, since the component counts differ. -/
theorem C8_counterexample :
    secondsToTimeOpt (timeToSeconds "00:10:00") = "10:00"
    ∧ ("10:00" : String) ≠ "00:10:00"
    ∧ secondsToTimeOpt (timeToSeconds "90:30") = "01:30:30"
    ∧ ("01:30:30" : String) ≠ "90:30" := by
  exact ⟨rfl, by decide, rfl, by decide⟩

/-- **C9** (counterexample).  A record whose start time `"abc"` matches
neither the numeric nor the colon-delimited form is *not* dropped: it stays
in the success outcome (with the invalid-timestamp sentinel transcript)
alongside the intact second record. -/
theorem C9_counterexample :
    timeToSeconds "abc" = none
    ∧ mapTranscripts
        [⟨.str "A", .str "", .arr [], .str "abc", .str "01:00"⟩,
         ⟨.str "B", .str "", .arr [], .str "01:00", .str "02:00"⟩] []
      = .ok [⟨⟨.str "A", .str "", .arr [], .str "abc", .str "01:00"⟩, invalidTsMsg⟩,
             ⟨⟨.str "B", .str "", .arr [], .str "01:00", .str "02:00"⟩, noTranscriptMsg⟩] := by
  exact ⟨rfl, rfl⟩

/-- **C6**.  Amended: the bulletproof `extractJsonArray` variant does parse
as-is first — if the (fence-stripped, trimmed) text parses directly as a
non-empty array whose first element has truthy `title`, `startTime` and
`endTime`, the parsed records are returned unchanged, identical to a single
direct parse.  (The `extractValidClipsArrayFromGemini` ladder instead cleans
unconditionally and can alter such spans, per the counterexample.) -/
theorem C6_direct_parse (text : String) (v : Json) (vs : List Json)
    (hp : Json.parse ⟨stripFences_bp (trimJs text.toList)⟩ = some (.arr (v :: vs)))
    (hv : headValid_bp v = true) :
    extractJsonArray_bp text = .ok (v :: vs) := by
  unfold extractJsonArray_bp
  rw [hp]
  simp [hv]

/-- Witness for `C6_direct_parse` at a concrete cleanly-parsing response. -/
theorem C6_direct_parse_witness :
    extractJsonArray_bp "[\x7b\"title\":\"a  b\",\"startTime\":\"01:00\",\"endTime\":\"02:00\"\x7d]"
      = .ok [.obj [("title", .str "a  b"), ("startTime", .str "01:00"),
          ("endTime", .str "02:00")]] :=
  C6_direct_parse _ _ _ rfl rfl

/-- **C10**.  The extractor checks required fields only on the element at
index 0: whenever the cleaned span parses as a non-empty array whose *head*
passes `headValid`, every element (checked or not) is normalized with
defaults and included; the empty object normalizes to a record with empty
title, description and time strings and an empty tag array; concretely, a
response whose second element is `{}` yields a success containing such a
blank record. -/
theorem C10_head_only_validation :
    (∀ (span : List Char) (v : Json) (vs : List Json),
        Json.parse ⟨cleanGeminiJson span⟩ = some (.arr (v :: vs)) →
        headValid v = true →
        tryCandidate span = some ((v :: vs).map normalizeClip))
    ∧ normalizeClip (.obj []) = ⟨.str "", .str "", .arr [], .str "", .str ""⟩
    ∧ extractValidClipsArrayFromGemini
        "[\x7b\"title\":\"T\",\"startTime\":\"01:00\",\"endTime\":\"02:00\"\x7d,\x7b\x7d]"
      = .ok [⟨.str "T", .str "", .arr [], .str "01:00", .str "02:00"⟩,
             ⟨.str "", .str "", .arr [], .str "", .str ""⟩] := by
  refine ⟨fun span v vs hp hv => ?_, rfl, rfl⟩
  unfold tryCandidate
  rw [hp]
  simp [hv]

/-- Witness for the quantified part of `C10_head_only_validation`. -/
theorem C10_head_only_validation_witness :
    tryCandidate "[\x7b\"title\":\"T\",\"startTime\":\"01:00\",\"endTime\":\"02:00\"\x7d,\x7b\x7d]".toList
      = some [⟨.str "T", .str "", .arr [], .str "01:00", .str "02:00"⟩,
              ⟨.str "", .str "", .arr [], .str "", .str ""⟩] :=
  C10_head_only_validation.1 _
    (.obj [("title", .str "T"), ("startTime", .str "01:00"), ("endTime", .str "02:00")])
    [.obj []] rfl rfl

/-- An alignment success never alters the underlying record. -/
theorem attachTranscript_ok_toNormClip {segs : List TranscriptSegment}
    {clip : NormClip} {rec : ClipWithTranscript}
    (h : attachTranscript segs clip = .ok rec) : rec.toNormClip = clip := by
  unfold attachTranscript at h
  split at h
  · exact Except.noConfusion h
  · exact Except.noConfusion h
  · injection h with h'; subst h'; rfl
  · injection h with h'; subst h'; rfl

/-- Structure of a successful alignment pass: records map back onto the
input clips pointwise, in order. -/
theorem mapTranscripts_ok {clips : List NormClip} {segs : List TranscriptSegment}
    {out : List ClipWithTranscript} (h : mapTranscripts clips segs = .ok out) :
    out.map (·.toNormClip) = clips ∧
    ∀ i : Nat, (clips[i]?.bind fun c => (attachTranscript segs c).toOption) = out[i]? := by
  induction clips generalizing out with
  | nil =>
    unfold mapTranscripts at h
    injection h with h'
    subst h'
    exact ⟨rfl, fun i => by simp⟩
  | cons c cs ih =>
    unfold mapTranscripts at h
    cases hat : attachTranscript segs c with
    | error e => rw [hat] at h; exact Except.noConfusion h
    | ok r =>
      rw [hat] at h
      cases hmt : mapTranscripts cs segs with
      | error e => rw [hmt] at h; exact Except.noConfusion h
      | ok rs =>
        rw [hmt] at h
        injection h with h'
        subst h'
        obtain ⟨ih1, ih2⟩ := ih hmt
        refine ⟨?_, ?_⟩
        · simp [attachTranscript_ok_toNormClip hat, ih1]
        · intro i
          cases i with
          | zero => simp [hat, Except.toOption]
          | succ n => simpa using ih2 n

/-- **C2**.  Amended: for string-typed times that both parse, the transcript
equals the space-joined, trimmed text of exactly the segments with
`seg.start < end ∧ seg.start + seg.duration > start` — *when that joined
text is non-empty* — and the "not found" sentinel is used whenever the
joined text is empty (in particular when no segment overlaps); a segment
abutting either clip boundary (`segment end = clip start` or `segment start
= clip end`) never satisfies the selection test. -/
theorem C2_alignment :
    (∀ (segments : List TranscriptSegment) (clip : NormClip) (st en : String)
        (s e : JsNum),
        clip.startTime = .str st → clip.endTime = .str en →
        timeToSeconds st = some s → timeToSeconds en = some e →
        attachTranscript segments clip =
          .ok ⟨clip,
            (fun t => if t = "" then noTranscriptMsg else t)
              (⟨trimJs (String.intercalate " "
                ((segments.filter fun seg =>
                    seg.start.blt e && s.blt (seg.start.add seg.duration)).map
                  (·.text))).toList⟩ : String)⟩)
    ∧ (∀ (seg : TranscriptSegment) (s e : JsNum),
        ((seg.start.add seg.duration).beq s = true →
          (seg.start.blt e && s.blt (seg.start.add seg.duration)) = false)
        ∧ (seg.start.beq e = true →
          (seg.start.blt e && s.blt (seg.start.add seg.duration)) = false)) := by
  constructor
  · intro segs clip st en s e h1 h2 hs he
    unfold attachTranscript
    rw [h1, h2]
    simp only [timeToSecondsJ]
    rw [hs, he]
  · intro seg s e
    constructor
    · intro h
      simp only [JsNum.beq, decide_eq_true_eq] at h
      simp only [JsNum.blt]
      rw [← h]
      simp
    · intro h
      simp only [JsNum.beq, decide_eq_true_eq] at h
      simp only [JsNum.blt]
      rw [h]
      simp

/-- Witness for `C2_alignment` on an overlapping segment with text. -/
theorem C2_alignment_witness :
    attachTranscript [⟨"hello", ⟨90, 1⟩, ⟨10, 1⟩⟩]
        ⟨.str "t", .str "", .arr [], .str "01:00", .str "02:00"⟩
      = .ok ⟨⟨.str "t", .str "", .arr [], .str "01:00", .str "02:00"⟩, "hello"⟩ :=
  C2_alignment.1 _ _ "01:00" "02:00" ⟨60, 1⟩ ⟨120, 1⟩ rfl rfl rfl rfl

/-- The retry loop of `generateClipsFromTranscript`, fully unrolled over the
three attempt outcomes. -/
theorem retryWithBackoff_eq {α : Type} (f : Nat → Except String α) :
    retryWithBackoff f =
      match f 1, f 2, f 3 with
      | .ok v, _, _ => ⟨.ok v, 1, []⟩
      | .error _, .ok v, _ => ⟨.ok v, 2, [2000]⟩
      | .error _, .error _, .ok v => ⟨.ok v, 3, [2000, 4000]⟩
      | .error _, .error _, .error e =>
        ⟨.error (exhaustedMsg (some e)), 3, [2000, 4000]⟩ := by
  cases h1 : f 1 <;> cases h2 : f 2 <;> cases h3 : f 3 <;>
    simp [retryWithBackoff, retryGo, MAX_ATTEMPTS, h1, h2, h3]

/-- **C3**.  The orchestrator makes at most `MAX_ATTEMPTS = 3` sequential
attempts; the recorded backoff delays are exactly `2000·2^k` for the `k`-th
wait (doubling from the fixed 2000 ms base); and when all three attempts
fail, the terminal error message carries the attempt count and the last
failure's reason. -/
theorem C3_retry_bounds :
    (∀ (backend : Nat → Except String String) (segments : List TranscriptSegment),
        (generateClipsFromTranscript backend segments).attempts ≤ MAX_ATTEMPTS
        ∧ (generateClipsFromTranscript backend segments).delays =
            (List.range (generateClipsFromTranscript backend segments).delays.length).map
              (fun k => 2000 * 2 ^ k))
    ∧ (∀ backend segments e₁ e₂ e₃,
        attemptOutcome backend segments 1 = .error e₁ →
        attemptOutcome backend segments 2 = .error e₂ →
        attemptOutcome backend segments 3 = .error e₃ →
        generateClipsFromTranscript backend segments =
          ⟨.error ("Failed to generate clips from Gemini API after 3 attempts. Last error: "
              ++ e₃ ++ ". Please try again or contact support if the issue persists."),
           3, [2000, 4000]⟩) := by
  constructor
  · intro b s
    unfold generateClipsFromTranscript
    rw [retryWithBackoff_eq]
    cases attemptOutcome b s 1 with
    | ok v => exact ⟨show (1 : Nat) ≤ MAX_ATTEMPTS by decide, rfl⟩
    | error e1 =>
      cases attemptOutcome b s 2 with
      | ok v => exact ⟨show (2 : Nat) ≤ MAX_ATTEMPTS by decide, rfl⟩
      | error e2 =>
        cases attemptOutcome b s 3 with
        | ok v => exact ⟨show (3 : Nat) ≤ MAX_ATTEMPTS by decide, rfl⟩
        | error e3 => exact ⟨show (3 : Nat) ≤ MAX_ATTEMPTS by decide, rfl⟩
  · intro b s e1 e2 e3 h1 h2 h3
    unfold generateClipsFromTranscript
    rw [retryWithBackoff_eq, h1, h2, h3]
    rfl

/-- Witness for `C3_retry_bounds` with a backend that always fails. -/
theorem C3_retry_witness :
    generateClipsFromTranscript (fun _ => .error "boom") [] =
      ⟨.error ("Failed to generate clips from Gemini API after 3 attempts. Last error: boom. Please try again or contact support if the issue persists."),
       3, [2000, 4000]⟩ :=
  C3_retry_bounds.2 (fun _ => .error "boom") [] "boom" "boom" "boom" rfl rfl rfl

/-- **C4**.  Amended: the pipeline performs no duration or ordering
validation at all — every extracted record survives a successful alignment
pass unchanged (so records with `end ≤ start` or any duration reach the
Success outcome; the `[min, max]` duration bounds exist only in the prompt
text of `getSystemInstruction`). -/
theorem C4_no_validation (clips : List NormClip) (segments : List TranscriptSegment)
    (out : List ClipWithTranscript) (h : mapTranscripts clips segments = .ok out) :
    out.map (·.toNormClip) = clips :=
  (mapTranscripts_ok h).1

/-- Witness for `C4_no_validation` on a record whose end precedes its
start. -/
theorem C4_no_validation_witness :
    ([⟨⟨.str "T", .str "", .arr [], .str "02:00", .str "01:00"⟩, noTranscriptMsg⟩]
        : List ClipWithTranscript).map (·.toNormClip)
      = [⟨.str "T", .str "", .arr [], .str "02:00", .str "01:00"⟩] :=
  C4_no_validation _ [] _ rfl

/-- A candidate success always carries at least one record. -/
theorem tryCandidate_ok_length {span : List Char} {recs : List NormClip}
    (h : tryCandidate span = some recs) : 0 < recs.length := by
  unfold tryCandidate at h
  split at h
  · split at h
    · injection h with h'; subst h'; simp
    · exact Option.noConfusion h
  · exact Option.noConfusion h

/-- First success of the candidate loop carries at least one record. -/
theorem findSome?_tryCandidate_pos :
    ∀ (l : List (List Char)) (recs : List NormClip),
      l.findSome? tryCandidate = some recs → 0 < recs.length := by
  intro l
  induction l with
  | nil => intro recs h; simp at h
  | cons a as ih =>
    intro recs h
    rw [List.findSome?_cons] at h
    cases ha : tryCandidate a with
    | some r => rw [ha] at h; injection h with h'; subst h'; exact tryCandidate_ok_length ha
    | none => rw [ha] at h; exact ih recs h

/-- **C5**.  Amended: a successful extraction always returns at least one
record (`0 < count`), but the code never truncates to `maxClipCount`: a
successful candidate returns *all* parsed records (count `vs.length + 1`,
however large), and the alignment pass preserves the count — the per-plan
ceiling (5/20/50) lives only in the prompt text. -/
theorem C5_count :
    (∀ (raw : String) (recs : List NormClip),
        extractValidClipsArrayFromGemini raw = .ok recs → 0 < recs.length)
    ∧ (∀ (span : List Char) (v : Json) (vs : List Json),
        Json.parse ⟨cleanGeminiJson span⟩ = some (.arr (v :: vs)) →
        headValid v = true →
        (tryCandidate span).map List.length = some (vs.length + 1))
    ∧ (∀ (clips : List NormClip) (segs : List TranscriptSegment)
          (out : List ClipWithTranscript),
        mapTranscripts clips segs = .ok out → out.length = clips.length) := by
  refine ⟨fun raw recs h => ?_, fun span v vs hp hv => ?_, fun clips segs out h => ?_⟩
  · cases hg : geminiCandidates raw with
    | nil =>
      rw [show extractValidClipsArrayFromGemini raw = .error noArrayMsg by
        unfold extractValidClipsArrayFromGemini; rw [hg]] at h
      exact Except.noConfusion h
    | cons c cs =>
      rw [show extractValidClipsArrayFromGemini raw =
            (match (sortLenDesc (c :: cs)).findSome? tryCandidate with
             | some r => Except.ok r
             | none => Except.error unrecoverableMsg) by
        unfold extractValidClipsArrayFromGemini; rw [hg]] at h
      cases hfs : (sortLenDesc (c :: cs)).findSome? tryCandidate with
      | none => rw [hfs] at h; exact Except.noConfusion h
      | some r =>
        rw [hfs] at h
        injection h with h'
        subst h'
        exact findSome?_tryCandidate_pos _ _ hfs
  · unfold tryCandidate
    rw [hp]
    simp [hv]
  · have h1 := (mapTranscripts_ok h).1
    calc out.length = (out.map (·.toNormClip)).length := (List.length_map _ _).symm
    _ = clips.length := by rw [h1]

/-- Witness for `C5_count` at a one-record extraction. -/
theorem C5_count_witness :
    extractValidClipsArrayFromGemini
        "[\x7b\"title\":\"T\",\"startTime\":\"01:00\",\"endTime\":\"02:00\"\x7d]"
      = .ok [⟨.str "T", .str "", .arr [], .str "01:00", .str "02:00"⟩]
    ∧ 0 < ([⟨.str "T", .str "", .arr [], .str "01:00", .str "02:00"⟩]
        : List NormClip).length :=
  ⟨rfl, C5_count.1 "[\x7b\"title\":\"T\",\"startTime\":\"01:00\",\"endTime\":\"02:00\"\x7d]"
    [⟨.str "T", .str "", .arr [], .str "01:00", .str "02:00"⟩] rfl⟩

/-- **C9**.  Amended: a record whose (string) start or end time parses to
`NaN` is *kept*, with the invalid-timestamp sentinel as its transcript — it
is not dropped; and a successful alignment pass is pointwise and
order-preserving, so the remaining records are unaffected. -/
theorem C9_kept_with_sentinel :
    (∀ (segs : List TranscriptSegment) (clip : NormClip) (st en : String),
        clip.startTime = .str st → clip.endTime = .str en →
        (timeToSeconds st = none ∨ timeToSeconds en = none) →
        attachTranscript segs clip = .ok ⟨clip, invalidTsMsg⟩)
    ∧ (∀ (clips : List NormClip) (segs : List TranscriptSegment)
          (out : List ClipWithTranscript),
        mapTranscripts clips segs = .ok out →
        out.length = clips.length ∧
        ∀ i : Nat, (clips[i]?.bind fun c => (attachTranscript segs c).toOption) = out[i]?) := by
  constructor
  · intro segs clip st en h1 h2 h3
    unfold attachTranscript
    rw [h1, h2]
    simp only [timeToSecondsJ]
    rcases h3 with h | h <;> rw [h] <;>
      first
        | rfl
        | (cases timeToSeconds en <;> rfl)
        | (cases timeToSeconds st <;> rfl)
  · intro clips segs out h
    refine ⟨?_, (mapTranscripts_ok h).2⟩
    calc out.length = (out.map (·.toNormClip)).length := (List.length_map _ _).symm
    _ = clips.length := by rw [(mapTranscripts_ok h).1]

/-- Witness for `C9_kept_with_sentinel` at an unparseable start time. -/
theorem C9_kept_with_sentinel_witness :
    attachTranscript [] ⟨.str "A", .str "", .arr [], .str "abc", .str "01:00"⟩ =
      .ok ⟨⟨.str "A", .str "", .arr [], .str "abc", .str "01:00"⟩, invalidTsMsg⟩ :=
  C9_kept_with_sentinel.1 [] _ "abc" "01:00" rfl rfl (Or.inl rfl)

theorem mem_insertLenDesc {z x : List Char} {l : List (List Char)} :
    z ∈ insertLenDesc x l ↔ z = x ∨ z ∈ l := by
  induction l with
  | nil => simp [insertLenDesc]
  | cons y ys ih =>
    unfold insertLenDesc
    by_cases h : y.length < x.length
    · simp [h]
    · simp [h, ih]
      tauto

theorem insertLenDesc_pairwise {x : List Char} {l : List (List Char)}
    (h : l.Pairwise fun a b => b.length ≤ a.length) :
    (insertLenDesc x l).Pairwise fun a b => b.length ≤ a.length := by
  induction l with
  | nil => simp [insertLenDesc]
  | cons y ys ih =>
    rcases List.pairwise_cons.mp h with ⟨hy, hys⟩
    unfold insertLenDesc
    by_cases hc : y.length < x.length
    · rw [if_pos hc]
      refine List.pairwise_cons.mpr ⟨?_, h⟩
      intro z hz
      rcases List.mem_cons.mp hz with rfl | hz'
      · omega
      · have := hy z hz'
        omega
    · rw [if_neg hc]
      refine List.pairwise_cons.mpr ⟨?_, ih hys⟩
      intro z hz
      rcases mem_insertLenDesc.mp hz with rfl | hz'
      · omega
      · exact hy z hz'

theorem sortLenDesc_pairwise (l : List (List Char)) :
    (sortLenDesc l).Pairwise fun a b => b.length ≤ a.length := by
  induction l with
  | nil => simp [sortLenDesc]
  | cons x xs ih => exact insertLenDesc_pairwise ih

theorem mem_sortLenDesc {z : List Char} {l : List (List Char)} :
    z ∈ sortLenDesc l ↔ z ∈ l := by
  induction l with
  | nil => simp [sortLenDesc]
  | cons x xs ih => simp [sortLenDesc, mem_insertLenDesc, ih]

/-- A strictly longest candidate is tried first by the stable
length-descending sort. -/
theorem sortLenDesc_head_strict_max (cands : List (List Char)) (c : List Char)
    (hc : c ∈ cands) (hmax : ∀ d ∈ cands, d ≠ c → d.length < c.length) :
    (sortLenDesc cands).head? = some c := by
  cases hs : sortLenDesc cands with
  | nil =>
    have h : c ∈ sortLenDesc cands := mem_sortLenDesc.mpr hc
    rw [hs] at h
    simp at h
  | cons h t =>
    have hmem : c ∈ h :: t := hs ▸ mem_sortLenDesc.mpr hc
    have hh : h ∈ cands := mem_sortLenDesc.mp (hs ▸ List.mem_cons_self h t)
    by_cases he : h = c
    · simp [he]
    · exfalso
      have h1 : h.length < c.length := hmax h hh he
      rcases List.mem_cons.mp hmem with rfl | hct
      · exact he rfl
      · have pw := sortLenDesc_pairwise cands
        rw [hs] at pw
        have h2 := (List.pairwise_cons.mp pw).1 c hct
        omega

/-- The head of a `dropWhile` result falsifies the predicate. -/
theorem dropWhile_head {p : Char → Bool} :
    ∀ {l x : List Char} {c : Char}, l.dropWhile p = c :: x → p c = false := by
  intro l
  induction l with
  | nil => intro x c h; simp at h
  | cons a l' ih =>
    intro x c h
    rw [List.dropWhile_cons] at h
    by_cases hpa : p a
    · rw [if_pos hpa] at h; exact ih h
    · rw [if_neg hpa] at h
      injection h with h1 _
      subst h1
      simpa using hpa

/-- Dropping a prefix cannot lengthen a list. -/
theorem dropWhile_length_le (p : Char → Bool) :
    ∀ l : List Char, (l.dropWhile p).length ≤ l.length := by
  intro l
  induction l with
  | nil => simp
  | cons a l' ih =>
    rw [List.dropWhile_cons]
    by_cases hpa : p a
    · rw [if_pos hpa]; simp; omega
    · rw [if_neg hpa]

/-- The candidate locator is insensitive to the fuel, once sufficient. -/
theorem findArrayCandidates_fuel :
    ∀ (f₁ : Nat) (cs : List Char) (f₂ : Nat), cs.length ≤ f₁ → cs.length ≤ f₂ →
      findArrayCandidates f₁ cs = findArrayCandidates f₂ cs := by
  intro f₁
  induction f₁ with
  | zero =>
    intro cs f₂ h1 _
    have : cs = [] := List.eq_nil_of_length_eq_zero (Nat.le_zero.mp h1)
    subst this
    cases f₂ <;> rfl
  | succ f ih =>
    intro cs f₂ h1 h2
    cases cs with
    | nil => cases f₂ <;> rfl
    | cons c cs' =>
      cases f₂ with
      | zero => simp at h2
      | succ g =>
        simp only [findArrayCandidates]
        by_cases hc : c = '['
        · rw [if_pos hc, if_pos hc]
          cases hdrop : cs'.dropWhile (· ≠ ']') with
          | nil => rfl
          | cons d rest =>
            have hd : d = ']' := by
              have := dropWhile_head hdrop
              simpa using this
            subst hd
            have hlen : rest.length < cs'.length := by
              have h3 : (cs'.dropWhile (· ≠ ']')).length ≤ cs'.length :=
                dropWhile_length_le _ _
              rw [hdrop] at h3
              simp at h3
              omega
            show ('[' :: (cs'.takeWhile (· ≠ ']') ++ [']'])) :: findArrayCandidates f rest
              = ('[' :: (cs'.takeWhile (· ≠ ']') ++ [']'])) :: findArrayCandidates g rest
            simp only [List.length_cons] at h1 h2
            rw [ih rest g (by omega) (by omega)]
        · rw [if_neg hc, if_neg hc]
          simp only [List.length_cons] at h1 h2
          exact ih cs' g (by omega) (by omega)

/-- `dropWhile (· ≠ q)` jumps over a block not containing `q`. -/
theorem dropWhile_append_notmem {q : Char} {a b : List Char} (h : q ∉ a) :
    (a ++ q :: b).dropWhile (· ≠ q) = q :: b := by
  induction a with
  | nil => simp [List.dropWhile_cons]
  | cons x a' ih =>
    have hx : x ≠ q := fun hxq => h (hxq ▸ List.mem_cons_self x a')
    have h' : q ∉ a' := fun hq => h (List.mem_cons_of_mem x hq)
    rw [List.cons_append, List.dropWhile_cons, if_pos (by simp [hx])]
    exact ih h'

/-- `takeWhile (· ≠ q)` collects exactly a block not containing `q`. -/
theorem takeWhile_append_notmem {q : Char} {a b : List Char} (h : q ∉ a) :
    (a ++ q :: b).takeWhile (· ≠ q) = a := by
  induction a with
  | nil => simp [List.takeWhile_cons]
  | cons x a' ih =>
    have hx : x ≠ q := fun hxq => h (hxq ▸ List.mem_cons_self x a')
    have h' : q ∉ a' := fun hq => h (List.mem_cons_of_mem x hq)
    rw [List.cons_append, List.takeWhile_cons, if_pos (by simp [hx]), ih h']

/-- Soundness of the locator: every candidate is a span from `[` to the
first `]` after it. -/
theorem findArrayCandidates_shape :
    ∀ (fuel : Nat) (cs span : List Char), span ∈ findArrayCandidates fuel cs →
      ∃ mid, span = '[' :: (mid ++ [']']) ∧ ']' ∉ mid := by
  intro fuel
  induction fuel with
  | zero => intro cs span h; simp [findArrayCandidates] at h
  | succ f ih =>
    intro cs span h
    cases cs with
    | nil => simp [findArrayCandidates] at h
    | cons c cs' =>
      simp only [findArrayCandidates] at h
      by_cases hc : c = '['
      · rw [if_pos hc] at h
        cases hdrop : cs'.dropWhile (· ≠ ']') with
        | nil => rw [hdrop] at h; simp at h
        | cons d rest =>
          have hd : d = ']' := by
            have := dropWhile_head hdrop
            simpa using this
          subst hd
          rw [hdrop] at h
          rcases List.mem_cons.mp h with rfl | h'
          · refine ⟨cs'.takeWhile (· ≠ ']'), rfl, fun hmem => ?_⟩
            have := List.mem_takeWhile_imp hmem
            simp at this
          · exact ih rest span h'
      · rw [if_neg hc] at h
        exact ih cs' span h

/-- Completeness of the locator on a non-nested bracket pair: a `[`…`]`
whose interior holds no bracket, preceded by text with no `[`, is emitted as
a candidate, and the scan continues after it. -/
theorem findArrayCandidates_decompose :
    ∀ (pre : List Char), '[' ∉ pre → ∀ (mid post : List Char), '[' ∉ mid → ']' ∉ mid →
      ∀ fuel, (pre ++ '[' :: (mid ++ ']' :: post)).length ≤ fuel →
      findArrayCandidates fuel (pre ++ '[' :: (mid ++ ']' :: post)) =
        ('[' :: (mid ++ [']'])) :: findArrayCandidates post.length post := by
  intro pre
  induction pre with
  | nil =>
    intro _ mid post _ hm2 fuel hf
    cases fuel with
    | zero => simp at hf
    | succ f =>
      simp only [List.nil_append, findArrayCandidates, eq_self_iff_true, if_true]
      rw [dropWhile_append_notmem hm2, takeWhile_append_notmem hm2]
      have hlen : post.length ≤ f := by
        simp [List.length_append] at hf
        omega
      show ('[' :: (mid ++ [']'])) :: findArrayCandidates f post
        = ('[' :: (mid ++ [']'])) :: findArrayCandidates post.length post
      rw [findArrayCandidates_fuel f post post.length hlen le_rfl]
  | cons p pre' ih =>
    intro hp mid post hm1 hm2 fuel hf
    have hpne : p ≠ '[' := fun h => hp (h ▸ List.mem_cons_self p pre')
    have hp' : '[' ∉ pre' := fun h => hp (List.mem_cons_of_mem p h)
    cases fuel with
    | zero => simp at hf
    | succ f =>
      simp only [List.cons_append, findArrayCandidates, if_neg hpne]
      exact ih hp' mid post hm1 hm2 f (by simpa using hf)

/-- **C1**.  Amended: the locator's candidates are the non-overlapping lazy
`[`…`]` spans (each runs from a `[` to the first `]` after it; for
non-nested input every such bracket pair is emitted), the trial order is by
descending length with a strictly longest candidate tried first, and
whenever the first-tried candidate cleans and parses to valid clip records,
extraction returns exactly those records.  (As stated — "extraction parses
the longer array and returns its records" for *every* decoy/intended pair —
the claim fails, per the counterexample: nested `tags` brackets truncate the
intended span.) -/
theorem C1_longest_first :
    (∀ (raw : String),
        (sortLenDesc (geminiCandidates raw)).Pairwise fun a b => b.length ≤ a.length)
    ∧ (∀ (raw : String) (c : List Char), c ∈ geminiCandidates raw →
        (∀ d ∈ geminiCandidates raw, d ≠ c → d.length < c.length) →
        (sortLenDesc (geminiCandidates raw)).head? = some c)
    ∧ (∀ (fuel : Nat) (cs span : List Char), span ∈ findArrayCandidates fuel cs →
        ∃ mid, span = '[' :: (mid ++ [']']) ∧ ']' ∉ mid)
    ∧ (∀ (pre mid post : List Char), '[' ∉ pre → '[' ∉ mid → ']' ∉ mid →
        findArrayCandidates (pre ++ '[' :: (mid ++ ']' :: post)).length
            (pre ++ '[' :: (mid ++ ']' :: post)) =
          ('[' :: (mid ++ [']'])) :: findArrayCandidates post.length post)
    ∧ (∀ (raw : String) (c : List Char) (rest : List (List Char))
          (recs : List NormClip),
        sortLenDesc (geminiCandidates raw) = c :: rest →
        tryCandidate c = some recs →
        extractValidClipsArrayFromGemini raw = .ok recs) := by
  refine ⟨fun raw => sortLenDesc_pairwise _,
          fun raw c h1 h2 => sortLenDesc_head_strict_max _ _ h1 h2,
          findArrayCandidates_shape,
          fun pre mid post h1 h2 h3 =>
            findArrayCandidates_decompose pre h1 mid post h2 h3 _ le_rfl,
          ?_⟩
  intro raw c rest recs hs ht
  cases hg : geminiCandidates raw with
  | nil => rw [hg] at hs; simp [sortLenDesc] at hs
  | cons a as =>
    rw [show extractValidClipsArrayFromGemini raw =
          (match (sortLenDesc (a :: as)).findSome? tryCandidate with
           | some r => Except.ok r
           | none => Except.error unrecoverableMsg) by
      unfold extractValidClipsArrayFromGemini; rw [hg]]
    rw [hg] at hs
    rw [hs, List.findSome?_cons, ht]

/-- Witness for `C1_longest_first`: a shorter decoy before a longer,
bracket-free, complete intended array — the longer array's records are
returned. -/
theorem C1_longest_first_witness :
    extractValidClipsArrayFromGemini
        "[1,2][\x7b\"title\":\"T\",\"startTime\":\"01:00\",\"endTime\":\"02:00\"\x7d]"
      = .ok [⟨.str "T", .str "", .arr [], .str "01:00", .str "02:00"⟩] :=
  C1_longest_first.2.2.2.2
    "[1,2][\x7b\"title\":\"T\",\"startTime\":\"01:00\",\"endTime\":\"02:00\"\x7d]"
    "[\x7b\"title\":\"T\",\"startTime\":\"01:00\",\"endTime\":\"02:00\"\x7d]".toList
    ["[1,2]".toList]
    [⟨.str "T", .str "", .arr [], .str "01:00", .str "02:00"⟩]
    rfl rfl

/-- The quote protector is insensitive to the fuel, once sufficient. -/
theorem protectQuoted_fuel :
    ∀ (f₁ : Nat) (cs : List Char) (f₂ : Nat), cs.length ≤ f₁ → cs.length ≤ f₂ →
      protectQuoted f₁ cs = protectQuoted f₂ cs := by
  intro f₁
  induction f₁ with
  | zero =>
    intro cs f₂ h1 _
    have : cs = [] := List.eq_nil_of_length_eq_zero (Nat.le_zero.mp h1)
    subst this
    cases f₂ <;> rfl
  | succ f ih =>
    intro cs f₂ h1 h2
    cases cs with
    | nil => cases f₂ <;> rfl
    | cons c cs' =>
      cases f₂ with
      | zero => simp at h2
      | succ g =>
        simp only [protectQuoted]
        by_cases hc : c = '"'
        · rw [if_pos hc, if_pos hc]
          simp only [List.length_cons] at h1 h2
          cases hdrop : cs'.dropWhile (· ≠ '"') with
          | nil =>
            show c :: protectQuoted f cs' = c :: protectQuoted g cs'
            rw [ih cs' g (by omega) (by omega)]
          | cons d rest =>
            have hd : d = '"' := by
              have := dropWhile_head hdrop
              simpa using this
            subst hd
            have hlen : rest.length < cs'.length := by
              have h3 : (cs'.dropWhile (· ≠ '"')).length ≤ cs'.length :=
                dropWhile_length_le _ _
              rw [hdrop] at h3
              simp at h3
              omega
            show '"' :: ((cs'.takeWhile (· ≠ '"')).map protectChar) ++ '"' :: protectQuoted f rest
              = '"' :: ((cs'.takeWhile (· ≠ '"')).map protectChar) ++ '"' :: protectQuoted g rest
            rw [ih rest g (by omega) (by omega)]
        · rw [if_neg hc, if_neg hc]
          simp only [List.length_cons] at h1 h2
          show c :: protectQuoted f cs' = c :: protectQuoted g cs'
          rw [ih cs' g (by omega) (by omega)]

/-- The quote protector copies a quote-free block unchanged. -/
theorem protectQuoted_copy :
    ∀ (o : List Char), '"' ∉ o → ∀ (rest : List Char) (fuel : Nat),
      (o ++ rest).length ≤ fuel →
      protectQuoted fuel (o ++ rest) = o ++ protectQuoted (fuel - o.length) rest := by
  intro o
  induction o with
  | nil => intro _ rest fuel _; simp
  | cons a o' ih =>
    intro ha rest fuel h
    have hane : a ≠ '"' := fun h' => ha (h' ▸ List.mem_cons_self a o')
    have ha' : '"' ∉ o' := fun h' => ha (List.mem_cons_of_mem a h')
    cases fuel with
    | zero => simp at h
    | succ f =>
      simp only [List.cons_append, protectQuoted, if_neg hane]
      show a :: protectQuoted f (o' ++ rest)
        = a :: (o' ++ protectQuoted (f + 1 - (a :: o').length) rest)
      rw [ih ha' rest f (by simpa using h)]
      simp [Nat.succ_sub_succ]

/-- The quote protector protects one quoted body and moves on. -/
theorem protectQuoted_pair (i : List Char) (hi : '"' ∉ i) (rest : List Char)
    (f : Nat) :
    protectQuoted (f + 1) ('"' :: (i ++ '"' :: rest)) =
      '"' :: (i.map protectChar ++ '"' :: protectQuoted f rest) := by
  simp only [protectQuoted, eq_self_iff_true, if_true]
  rw [dropWhile_append_notmem hi, takeWhile_append_notmem hi]
  rfl

/-- The protection pass on a decomposed text: outside parts and the quotes
are copied, quoted bodies are protected. -/
theorem protectQuoted_render :
    ∀ (segs : List (List Char × List Char)) (tail : List Char),
      (∀ p ∈ segs, '"' ∉ p.1 ∧ '"' ∉ p.2) → '"' ∉ tail →
      protectQuoted (renderQuoted segs tail).length (renderQuoted segs tail) =
        renderQuoted (segs.map fun p => (p.1, p.2.map protectChar)) tail := by
  intro segs
  induction segs with
  | nil =>
    intro tail _ htail
    have h := protectQuoted_copy tail htail [] (tail ++ []).length le_rfl
    simpa [renderQuoted, protectQuoted] using h
  | cons pr segs' ih =>
    obtain ⟨o, i⟩ := pr
    intro tail hsegs htail
    obtain ⟨ho, hi⟩ := hsegs (o, i) (List.mem_cons_self _ _)
    have hsegs' : ∀ p ∈ segs', '"' ∉ p.1 ∧ '"' ∉ p.2 :=
      fun p hp => hsegs p (List.mem_cons_of_mem _ hp)
    simp only [renderQuoted, List.map_cons]
    rw [protectQuoted_copy o ho _ _ le_rfl]
    have harith :
        (o ++ '"' :: (i ++ '"' :: renderQuoted segs' tail)).length - o.length =
          (i.length + 1 + (renderQuoted segs' tail).length) + 1 := by
      simp [List.length_append]
      omega
    rw [harith, protectQuoted_pair i hi _ _]
    rw [protectQuoted_fuel _ (renderQuoted segs' tail) (renderQuoted segs' tail).length
      (by omega) le_rfl]
    rw [ih tail hsegs' htail]

/-- Mapping a quote-fixing character map over a decomposed text. -/
theorem map_renderQuoted (f : Char → Char) (hf : f '"' = '"') :
    ∀ (segs : List (List Char × List Char)) (tail : List Char),
      (renderQuoted segs tail).map f =
        renderQuoted (segs.map fun p => (p.1.map f, p.2.map f)) (tail.map f) := by
  intro segs
  induction segs with
  | nil => intro tail; rfl
  | cons pr segs' ih =>
    obtain ⟨o, i⟩ := pr
    intro tail
    simp [renderQuoted, hf, ih]

theorem restore_after_apos2dq {c : Char} (h : c ≠ '\x01') :
    restoreChar (apos2dq c) = apos2dq c := by
  unfold apos2dq restoreChar
  by_cases h1 : c = '\'' <;> simp [h1, h]

theorem restore_apos_protect {c : Char} (h : c ≠ '\x01') :
    restoreChar (apos2dq (protectChar c)) = c := by
  unfold protectChar apos2dq restoreChar
  by_cases h1 : c = '\'' <;> simp [h1, h]

/-- **C7**.  Amended: the part_006 aggressive-cleanup quote normalization
(protect, convert, restore) converts single quotes *outside* double-quoted
string bodies to double quotes while every character *inside* a double-quoted
body — apostrophes included — survives intact.  (The quote step of
`extractValidClipsArrayFromGemini` instead converts every single quote,
corrupting such apostrophes, per the counterexample.) -/
theorem C7_quote_protect :
    ∀ (segs : List (List Char × List Char)) (tail : List Char),
      (∀ p ∈ segs, ('"' ∉ p.1 ∧ '\x01' ∉ p.1) ∧ ('"' ∉ p.2 ∧ '\x01' ∉ p.2)) →
      '"' ∉ tail → '\x01' ∉ tail →
      quoteNormalizeP6 (renderQuoted segs tail) =
        renderQuoted (segs.map fun p => (p.1.map apos2dq, p.2)) (tail.map apos2dq) := by
  intro segs tail hsegs ht1 ht2
  unfold quoteNormalizeP6
  rw [protectQuoted_render segs tail (fun p hp => ⟨(hsegs p hp).1.1, (hsegs p hp).2.1⟩) ht1]
  rw [map_renderQuoted apos2dq rfl, map_renderQuoted restoreChar rfl]
  simp only [List.map_map]
  congr 1
  · apply List.map_congr_left
    intro p hp
    obtain ⟨⟨_, ho2⟩, ⟨_, hi2⟩⟩ := hsegs p hp
    have e1 : p.1.map (restoreChar ∘ apos2dq) = p.1.map apos2dq := by
      apply List.map_congr_left
      intro c hc
      exact restore_after_apos2dq (fun h => ho2 (h ▸ hc))
    have e2 : p.2.map (restoreChar ∘ apos2dq ∘ protectChar) = p.2 := by
      have : p.2.map (restoreChar ∘ apos2dq ∘ protectChar) = p.2.map id := by
        apply List.map_congr_left
        intro c hc
        exact restore_apos_protect (fun h => hi2 (h ▸ hc))
      simpa using this
    simp [e1, e2]
  · have : tail.map (restoreChar ∘ apos2dq) = tail.map apos2dq := by
      apply List.map_congr_left
      intro c hc
      exact restore_after_apos2dq (fun h => ht2 (h ▸ hc))
    simpa using this

/-- Witness for `C7_quote_protect`: a single-quoted key with a value
containing `can't` — the key quotes are converted, the apostrophe
survives. -/
theorem C7_quote_protect_witness :
    (⟨quoteNormalizeP6 "\x7b'a': \"can't\"\x7d".toList⟩ : String) = "\x7b\"a\": \"can't\"\x7d" := by
  have h := C7_quote_protect [("\x7b'a': ".toList, "can't".toList)] "\x7d".toList
    (by decide) (by decide) (by decide)
  exact congrArg (fun l => (⟨l⟩ : String)) h

theorem toList_append (a b : String) : (a ++ b).toList = a.toList ++ b.toList := rfl

theorem splitChar_ne_nil (sep : Char) : ∀ l : List Char, splitChar sep l ≠ [] := by
  intro l
  induction l with
  | nil => simp [splitChar]
  | cons c cs ih =>
    unfold splitChar
    by_cases hc : c = sep
    · simp [hc]
    · rw [if_neg hc]
      cases hs : splitChar sep cs with
      | nil => exact absurd hs ih
      | cons h t => simp

/-- Splitting at the first separator. -/
theorem splitChar_append (sep : Char) :
    ∀ (a b : List Char), sep ∉ a →
      splitChar sep (a ++ sep :: b) = a :: splitChar sep b := by
  intro a
  induction a with
  | nil => intro b _; simp [splitChar]
  | cons x a' ih =>
    intro b h
    have hx : x ≠ sep := fun hxq => h (hxq ▸ List.mem_cons_self x a')
    have h' : sep ∉ a' := fun hq => h (List.mem_cons_of_mem x hq)
    have step : splitChar sep (x :: (a' ++ sep :: b)) =
        match splitChar sep (a' ++ sep :: b) with
        | hh :: t => (x :: hh) :: t
        | [] => [[x]] := by
      conv_lhs => unfold splitChar
      rw [if_neg hx]
    rw [List.cons_append, step, ih b h']

/-- A separator-free list does not split. -/
theorem splitChar_no_sep (sep : Char) :
    ∀ b : List Char, sep ∉ b → splitChar sep b = [b] := by
  intro b
  induction b with
  | nil => intro _; rfl
  | cons x b' ih =>
    intro h
    have hx : x ≠ sep := fun hxq => h (hxq ▸ List.mem_cons_self x b')
    have h' : sep ∉ b' := fun hq => h (List.mem_cons_of_mem x hq)
    unfold splitChar
    rw [if_neg hx, ih h']

/-- `Int.fdiv` on natural casts is natural division. -/
theorem natCast_fdiv (a b : Nat) : ((a : Int).fdiv (b : Int)) = ((a / b : Nat) : Int) := by
  cases a with
  | zero => rw [Nat.zero_div]; rfl
  | succ a' => rfl

/-- Floor-division helper: once the numerator is a natural cast, `floor ∘
div` is natural division. -/
theorem fdiv_toNat (N : Int) (D : Nat) (a : Nat) (h : N = (a : Int)) :
    ((N.fdiv (D : Int))).toNat = a / D := by
  rw [h, natCast_fdiv, Int.toNat_ofNat]

/-- Zero-padded two-digit rendering of `n < 100` parses back to `n` by
`Number()`. -/
theorem jsNumber_pad2 : ∀ n : Nat, n < 100 → jsNumber (pad2 n) = some ⟨(n : Int), 1⟩ := by
  decide

/-- Zero-padded renderings contain no colon. -/
theorem pad2_no_colon : ∀ n : Nat, n < 100 → ':' ∉ (pad2 n).toList := by
  decide

/-- `timeToSeconds` on a two-component string with parsing components. -/
theorem timeToSeconds_pair (time : String) (A B : List Char) (vA vB : JsNum)
    (ht : time.toList = A ++ ':' :: B) (hA : ':' ∉ A) (hB : ':' ∉ B)
    (hvA : jsNumber ⟨A⟩ = some vA) (hvB : jsNumber ⟨B⟩ = some vB) :
    timeToSeconds time = some ((vA.mul (JsNum.ofNat 60)).add vB) := by
  have hne : ¬ time = "" := by
    intro h
    rw [h] at ht
    exact absurd ht.symm (by simp)
  have hcon : time.toList.contains ':' = true := by
    rw [ht]
    simp
  unfold timeToSeconds
  rw [if_neg (fun hor => hor.elim hne (fun hnc => hnc (by rw [hcon])))]
  rw [ht, splitChar_append ':' A B hA, splitChar_no_sep ':' B hB]
  simp only [List.map_cons, List.map_nil]
  rw [hvA, hvB]

/-- `timeToSeconds` on a three-component string with parsing components. -/
theorem timeToSeconds_triple (time : String) (A B C : List Char) (vA vB vC : JsNum)
    (ht : time.toList = A ++ ':' :: (B ++ ':' :: C))
    (hA : ':' ∉ A) (hB : ':' ∉ B) (hC : ':' ∉ C)
    (hvA : jsNumber ⟨A⟩ = some vA) (hvB : jsNumber ⟨B⟩ = some vB)
    (hvC : jsNumber ⟨C⟩ = some vC) :
    timeToSeconds time =
      some (((vA.mul (JsNum.ofNat 3600)).add (vB.mul (JsNum.ofNat 60))).add vC) := by
  have hne : ¬ time = "" := by
    intro h
    rw [h] at ht
    exact absurd ht.symm (by simp)
  have hcon : time.toList.contains ':' = true := by
    rw [ht]
    simp
  unfold timeToSeconds
  rw [if_neg (fun hor => hor.elim hne (fun hnc => hnc (by rw [hcon])))]
  rw [ht, splitChar_append ':' A _ hA, splitChar_append ':' B C hB,
    splitChar_no_sep ':' C hC]
  simp only [List.map_cons, List.map_nil]
  rw [hvA, hvB, hvC]

/-- `secondsToTime` on a whole number of seconds, in terms of natural
division and remainder. -/
theorem secondsToTime_natCast (c : Nat) :
    secondsToTime ⟨(c : Int), 1⟩ =
      if 0 < c / 3600 then
        pad2 (c / 3600) ++ ":" ++ pad2 (c % 3600 / 60) ++ ":" ++ pad2 (c % 60)
      else pad2 (c % 3600 / 60) ++ ":" ++ pad2 (c % 60) := by
  have hblt : (⟨(c : Int), 1⟩ : JsNum).blt 0 = false := by
    simp only [JsNum.blt, decide_eq_false_iff_not]
    show ¬ ((c : Int) * (⟨(0 : Int), 1⟩ : JsNum).d < (⟨(0 : Int), 1⟩ : JsNum).n * 1)
    simp
  have hfdK : ∀ k : Nat, Int.sign ((k : Nat) : Int) = 1 →
      ((c : Int) * ((1 : Nat) : Int) * Int.sign ((k : Nat) : Int)).fdiv
        (((1 * ((k : Nat) : Int).natAbs : Nat)) : Int) = ((c / k : Nat) : Int) := by
    intro k hk
    rw [hk]
    rw [show ((c : Int) * ((1 : Nat) : Int) * 1) = ((c : Nat) : Int) by push_cast; ring]
    rw [show ((1 * ((k : Nat) : Int).natAbs : Nat)) = (k : Nat) by
      simp [Int.natAbs_ofNat]]
    exact natCast_fdiv c k
  have e1 : (((⟨(c : Int), 1⟩ : JsNum).div (JsNum.ofNat 3600)).floor).toNat = c / 3600 := by
    simp only [JsNum.div, JsNum.ofNat, JsNum.floor]
    apply fdiv_toNat
    rw [show Int.sign ((3600 : Nat) : Int) = 1 from rfl]
    push_cast
    ring
  have e2 : ((((⟨(c : Int), 1⟩ : JsNum).modNat 3600).div (JsNum.ofNat 60)).floor).toNat
      = c % 3600 / 60 := by
    simp only [JsNum.modNat, JsNum.sub, JsNum.add, JsNum.neg, JsNum.mul, JsNum.ofInt,
      JsNum.ofNat, JsNum.div, JsNum.floor]
    apply fdiv_toNat
    rw [hfdK 3600 rfl]
    rw [show Int.sign ((60 : Nat) : Int) = 1 from rfl]
    push_cast
    omega
  have e3 : (((⟨(c : Int), 1⟩ : JsNum).modNat 60).floor).toNat = c % 60 := by
    have key : (((⟨(c : Int), 1⟩ : JsNum).modNat 60).floor).toNat = c % 60 / (1 * (1 * 1)) := by
      simp only [JsNum.modNat, JsNum.sub, JsNum.add, JsNum.neg, JsNum.mul, JsNum.ofInt,
        JsNum.ofNat, JsNum.div, JsNum.floor]
      apply fdiv_toNat
      rw [hfdK 60 rfl]
      push_cast
      omega
    simpa using key
  unfold secondsToTime
  rw [hblt]
  simp only [Bool.false_eq_true, if_false]
  rw [e1, e2, e3]

/-- **C8**.  Amended: on canonically zero-padded components the round trip
holds — `MM:SS` with `M, S ≤ 59` and `HH:MM:SS` with `1 ≤ H ≤ 99`,
`M, S ≤ 59` parse to exactly their elapsed seconds and render back to the
same padded string — and `timeToSeconds` is monotone in the denoted elapsed
time.  (As stated — for *every* `MM:SS`/`HH:MM:SS` string — the round trip
fails, per the counterexample: `"00:10:00"` returns as `"10:00"` and
`"90:30"` as `"01:30:30"`.) -/
theorem C8_roundtrip_canonical :
    (∀ m s : Nat, m ≤ 59 → s ≤ 59 →
        timeToSeconds (pad2 m ++ ":" ++ pad2 s) = some ⟨((60 * m + s : Nat) : Int), 1⟩
        ∧ secondsToTime ⟨((60 * m + s : Nat) : Int), 1⟩ = pad2 m ++ ":" ++ pad2 s)
    ∧ (∀ h m s : Nat, 1 ≤ h → h ≤ 99 → m ≤ 59 → s ≤ 59 →
        timeToSeconds (pad2 h ++ ":" ++ pad2 m ++ ":" ++ pad2 s)
          = some ⟨((3600 * h + 60 * m + s : Nat) : Int), 1⟩
        ∧ secondsToTime ⟨((3600 * h + 60 * m + s : Nat) : Int), 1⟩
          = pad2 h ++ ":" ++ pad2 m ++ ":" ++ pad2 s)
    ∧ (∀ m₁ s₁ m₂ s₂ : Nat, m₁ ≤ 59 → s₁ ≤ 59 → m₂ ≤ 59 → s₂ ≤ 59 →
        60 * m₁ + s₁ ≤ 60 * m₂ + s₂ →
        ∀ v₁ v₂ : JsNum,
          timeToSeconds (pad2 m₁ ++ ":" ++ pad2 s₁) = some v₁ →
          timeToSeconds (pad2 m₂ ++ ":" ++ pad2 s₂) = some v₂ →
          v₁.ble v₂ = true) := by
  have hpair : ∀ m s : Nat, m ≤ 59 → s ≤ 59 →
      timeToSeconds (pad2 m ++ ":" ++ pad2 s) = some ⟨((60 * m + s : Nat) : Int), 1⟩ := by
    intro m s hm hs
    have hlist : (pad2 m ++ ":" ++ pad2 s).toList
        = (pad2 m).toList ++ ':' :: (pad2 s).toList := by
      simp [toList_append]
    have h := timeToSeconds_pair (pad2 m ++ ":" ++ pad2 s) (pad2 m).toList (pad2 s).toList
      ⟨(m : Int), 1⟩ ⟨(s : Int), 1⟩ hlist (pad2_no_colon m (by omega)) (pad2_no_colon s (by omega))
      (jsNumber_pad2 m (by omega)) (jsNumber_pad2 s (by omega))
    rw [h]
    simp only [JsNum.mul, JsNum.add, JsNum.ofNat, Option.some.injEq, JsNum.mk.injEq]
    constructor
    · push_cast
      ring
    · simp
  refine ⟨fun m s hm hs => ⟨hpair m s hm hs, ?_⟩, fun h m s hh1 hh2 hm hs => ⟨?_, ?_⟩, ?_⟩
  · rw [secondsToTime_natCast]
    have h1 : (60 * m + s) / 3600 = 0 := Nat.div_eq_of_lt (by omega)
    have h2 : (60 * m + s) % 3600 = 60 * m + s := Nat.mod_eq_of_lt (by omega)
    have h3 : (60 * m + s) / 60 = m := by omega
    have h4 : (60 * m + s) % 60 = s := by omega
    rw [if_neg (by omega), h2, h3, h4]
  · have hlist : (pad2 h ++ ":" ++ pad2 m ++ ":" ++ pad2 s).toList
        = (pad2 h).toList ++ ':' :: ((pad2 m).toList ++ ':' :: (pad2 s).toList) := by
      simp [toList_append]
    have ht := timeToSeconds_triple (pad2 h ++ ":" ++ pad2 m ++ ":" ++ pad2 s)
      (pad2 h).toList (pad2 m).toList (pad2 s).toList
      ⟨(h : Int), 1⟩ ⟨(m : Int), 1⟩ ⟨(s : Int), 1⟩ hlist
      (pad2_no_colon h (by omega)) (pad2_no_colon m (by omega)) (pad2_no_colon s (by omega))
      (jsNumber_pad2 h (by omega)) (jsNumber_pad2 m (by omega)) (jsNumber_pad2 s (by omega))
    rw [ht]
    simp only [JsNum.mul, JsNum.add, JsNum.ofNat, Option.some.injEq, JsNum.mk.injEq]
    constructor
    · push_cast
      ring
    · simp
  · rw [secondsToTime_natCast]
    have h1 : (3600 * h + 60 * m + s) / 3600 = h := by omega
    have h2 : (3600 * h + 60 * m + s) % 3600 = 60 * m + s := by omega
    have h3 : (60 * m + s) / 60 = m := by omega
    have h4 : (3600 * h + 60 * m + s) % 60 = s := by omega
    rw [if_pos (by omega), h1, h2, h3, h4]
  · intro m₁ s₁ m₂ s₂ hm₁ hs₁ hm₂ hs₂ hle v₁ v₂ h₁ h₂
    rw [hpair m₁ s₁ hm₁ hs₁] at h₁
    rw [hpair m₂ s₂ hm₂ hs₂] at h₂
    injection h₁ with h₁'
    injection h₂ with h₂'
    subst h₁'
    subst h₂'
    simp only [JsNum.ble, decide_eq_true_eq]
    push_cast
    omega

/-- Witness for `C8_roundtrip_canonical` at `01:30` (90 s). -/
theorem C8_roundtrip_witness :
    timeToSeconds "01:30" = some ⟨90, 1⟩ ∧ secondsToTime ⟨90, 1⟩ = "01:30" :=
  C8_roundtrip_canonical.1 1 30 (by decide) (by decide)

end ClipGenie
